import Mathlib

/-!
Verification of the godot-bevy code generator (Python sources under
`godot_bevy_codegen/` and `scripts/`) against its natural-language
specification.  The Python functions are shallowly embedded as executable
Lean definitions; stateful iteration becomes structural recursion, the
unbounded `while` walk over the parent map becomes a fuel-bounded walk
(the fuel `pm.length + 1` is exact for acyclic maps: a parent chain in a
map without cycles performs at most `pm.length` successful lookups).
-/

namespace GodotBevy

/-! ## Parent maps and the ancestor walk (`special_cases.is_descendant_of`) -/

/-- A parent map `class-name → parent-name`, as an association list
(first binding wins, mirroring a Python `dict` with unique keys). -/
abbrev ParentMap := List (String × String)

/-- `parent_map.get(c)`: the parent recorded for `c`, if any. -/
def lookupParent (pm : ParentMap) (c : String) : Option String :=
  (pm.find? (fun e => e.1 == c)).map (fun e => e.2)

/-- The `while current in parent_map` walk from `special_cases.is_descendant_of`:
step to the parent of `current`, succeed when the parent equals `a`.
Fuel bounds the number of iterations. -/
def isDescAux (pm : ParentMap) (a : String) : Nat → String → Bool
  | 0, _ => false
  | fuel + 1, current =>
    match lookupParent pm current with
    | none => false
    | some p => if p == a then true else isDescAux pm a fuel p

/-- `is_descendant_of(node_type, ancestor)` from
`godot_bevy_codegen/src/special_cases.py`: walk the parent chain starting
at `x`'s parent, looking for `a`. -/
def is_descendant_of (pm : ParentMap) (x a : String) : Bool :=
  isDescAux pm a (pm.length + 1) x

/-! ## The category partitioner (`special_cases.categorize_types_by_hierarchy`) -/

/-- The result dictionary `{"3d": [...], "2d": [...], "control": [...],
"universal": [...]}` of `categorize_types_by_hierarchy`. -/
structure Categories where
  threeD : List String
  twoD : List String
  control : List String
  universal : List String
deriving Repr, DecidableEq

/-- `categorize_types_by_hierarchy(node_types, parent_map)`: one pass over
`node_types`; each type is appended to the first matching branch
(3d / 2d / control / direct child of "Node") or to none. -/
def categorize_types_by_hierarchy (node_types : List String) (pm : ParentMap) :
    Categories :=
  match node_types with
  | [] => ⟨[], [], [], []⟩
  | t :: ts =>
    let r := categorize_types_by_hierarchy ts pm
    if is_descendant_of pm t "Node3D" then { r with threeD := t :: r.threeD }
    else if is_descendant_of pm t "Node2D" then { r with twoD := t :: r.twoD }
    else if is_descendant_of pm t "Control" then { r with control := t :: r.control }
    else if lookupParent pm t == some "Node" then { r with universal := t :: r.universal }
    else r

/-- The "3d" list collects exactly the input types that are descendants of
`Node3D`, in input order. -/
theorem categorize_threeD_eq (nts : List String) (pm : ParentMap) :
    (categorize_types_by_hierarchy nts pm).threeD =
      nts.filter (fun t => is_descendant_of pm t "Node3D") := by
  induction nts with
  | nil => rfl
  | cons t ts ih =>
    simp only [categorize_types_by_hierarchy, List.filter]
    by_cases h3 : is_descendant_of pm t "Node3D"
    · simp [h3, ih]
    · by_cases h2 : is_descendant_of pm t "Node2D"
      · simp [h3, h2, ih]
      · by_cases hc : is_descendant_of pm t "Control"
        · simp [h3, h2, hc, ih]
        · by_cases hu : lookupParent pm t == some "Node"
          · simp [h3, h2, hc, hu, ih]
          · simp [h3, h2, hc, hu, ih]

/-- The "2d" list collects exactly the non-3d input types descended from
`Node2D`. -/
theorem categorize_twoD_eq (nts : List String) (pm : ParentMap) :
    (categorize_types_by_hierarchy nts pm).twoD =
      nts.filter (fun t =>
        !is_descendant_of pm t "Node3D" && is_descendant_of pm t "Node2D") := by
  induction nts with
  | nil => rfl
  | cons t ts ih =>
    simp only [categorize_types_by_hierarchy, List.filter]
    by_cases h3 : is_descendant_of pm t "Node3D"
    · simp [h3, ih]
    · by_cases h2 : is_descendant_of pm t "Node2D"
      · simp [h3, h2, ih]
      · by_cases hc : is_descendant_of pm t "Control"
        · simp [h3, h2, hc, ih]
        · by_cases hu : lookupParent pm t == some "Node"
          · simp [h3, h2, hc, hu, ih]
          · simp [h3, h2, hc, hu, ih]

/-- The "control" list collects exactly the input types that are descendants
of `Control` and of neither spatial branch. -/
theorem categorize_control_eq (nts : List String) (pm : ParentMap) :
    (categorize_types_by_hierarchy nts pm).control =
      nts.filter (fun t =>
        !is_descendant_of pm t "Node3D" && !is_descendant_of pm t "Node2D" &&
          is_descendant_of pm t "Control") := by
  induction nts with
  | nil => rfl
  | cons t ts ih =>
    simp only [categorize_types_by_hierarchy, List.filter]
    by_cases h3 : is_descendant_of pm t "Node3D"
    · simp [h3, ih]
    · by_cases h2 : is_descendant_of pm t "Node2D"
      · simp [h3, h2, ih]
      · by_cases hc : is_descendant_of pm t "Control"
        · simp [h3, h2, hc, ih]
        · by_cases hu : lookupParent pm t == some "Node"
          · simp [h3, h2, hc, hu, ih]
          · simp [h3, h2, hc, hu, ih]

/-- The "universal" list collects exactly the input types outside the three
branches whose direct parent is `Node`. -/
theorem categorize_universal_eq (nts : List String) (pm : ParentMap) :
    (categorize_types_by_hierarchy nts pm).universal =
      nts.filter (fun t =>
        !is_descendant_of pm t "Node3D" && !is_descendant_of pm t "Node2D" &&
          !is_descendant_of pm t "Control" && (lookupParent pm t == some "Node")) := by
  induction nts with
  | nil => rfl
  | cons t ts ih =>
    simp only [categorize_types_by_hierarchy, List.filter]
    by_cases h3 : is_descendant_of pm t "Node3D"
    · simp [h3, ih]
    · by_cases h2 : is_descendant_of pm t "Node2D"
      · simp [h3, h2, ih]
      · by_cases hc : is_descendant_of pm t "Control"
        · simp [h3, h2, hc, ih]
        · by_cases hu : lookupParent pm t == some "Node"
          · simp [h3, h2, hc, hu, ih]
          · simp [h3, h2, hc, hu, ih]


/-! ## String ordering (Python `sorted` on strings: code-point lexicographic)

`sorted` in the Python sources is embedded as an insertion sort by the
code-point order; since the order is total and antisymmetric, any
correct sort produces the same list, so the choice of algorithm is
immaterial. -/

def leChars : List Char → List Char → Bool
  | [], _ => true
  | _ :: _, [] => false
  | a :: as, b :: bs =>
    if a.toNat < b.toNat then true
    else if b.toNat < a.toNat then false
    else leChars as bs

theorem leChars_total (a b : List Char) : leChars a b || leChars b a := by
  induction a generalizing b with
  | nil => simp [leChars]
  | cons x xs ih =>
    cases b with
    | nil => simp [leChars]
    | cons y ys =>
      simp only [leChars]
      rcases Nat.lt_trichotomy x.toNat y.toNat with h | h | h
      · simp [h]
      · simp [show ¬ x.toNat < y.toNat by omega, show ¬ y.toNat < x.toNat by omega, ih ys]
      · simp [show ¬ x.toNat < y.toNat by omega, h]

theorem leChars_trans {a b c : List Char} (h1 : leChars a b = true) (h2 : leChars b c = true) :
    leChars a c = true := by
  induction a generalizing b c with
  | nil => simp [leChars]
  | cons x xs ih =>
    cases b with
    | nil => simp [leChars] at h1
    | cons y ys =>
      cases c with
      | nil => simp [leChars] at h2
      | cons z zs =>
        simp only [leChars] at h1 h2 ⊢
        rcases Nat.lt_trichotomy x.toNat y.toNat with hxy | hxy | hxy
        · rcases Nat.lt_trichotomy y.toNat z.toNat with hyz | hyz | hyz
          · simp [show x.toNat < z.toNat by omega]
          · simp [show x.toNat < z.toNat by omega]
          · simp [show ¬ y.toNat < z.toNat by omega, hyz] at h2
        · rcases Nat.lt_trichotomy y.toNat z.toNat with hyz | hyz | hyz
          · simp [show x.toNat < z.toNat by omega]
          · have h1' : leChars xs ys = true := by
              simpa [show ¬ x.toNat < y.toNat by omega, show ¬ y.toNat < x.toNat by omega] using h1
            have h2' : leChars ys zs = true := by
              simpa [show ¬ y.toNat < z.toNat by omega, show ¬ z.toNat < y.toNat by omega] using h2
            simp [show ¬ x.toNat < z.toNat by omega, show ¬ z.toNat < x.toNat by omega, ih h1' h2']
          · simp [show ¬ y.toNat < z.toNat by omega, hyz] at h2
        · simp [show ¬ x.toNat < y.toNat by omega, hxy] at h1

theorem char_toNat_inj {a b : Char} (h : a.toNat = b.toNat) : a = b := by
  apply Char.ext
  exact UInt32.ext h

theorem leChars_antisymm {a b : List Char} (h1 : leChars a b = true) (h2 : leChars b a = true) :
    a = b := by
  induction a generalizing b with
  | nil => cases b with
    | nil => rfl
    | cons y ys => simp [leChars] at h2
  | cons x xs ih =>
    cases b with
    | nil => simp [leChars] at h1
    | cons y ys =>
      simp only [leChars] at h1 h2
      rcases Nat.lt_trichotomy x.toNat y.toNat with hxy | hxy | hxy
      · simp [show ¬ y.toNat < x.toNat by omega, hxy] at h2
      · have h1' : leChars xs ys = true := by
          simpa [show ¬ x.toNat < y.toNat by omega, show ¬ y.toNat < x.toNat by omega] using h1
        have h2' : leChars ys xs = true := by
          simpa [show ¬ x.toNat < y.toNat by omega, show ¬ y.toNat < x.toNat by omega] using h2
        rw [char_toNat_inj hxy, ih h1' h2']
      · simp [show ¬ x.toNat < y.toNat by omega, hxy] at h1

def strLe (a b : String) : Bool := leChars a.data b.data

theorem strLe_total (a b : String) : strLe a b || strLe b a := leChars_total a.data b.data

theorem strLe_trans {a b c : String} (h1 : strLe a b = true) (h2 : strLe b c = true) :
    strLe a c = true := leChars_trans h1 h2

theorem strLe_antisymm {a b : String} (h1 : strLe a b = true) (h2 : strLe b a = true) :
    a = b := by
  cases a; cases b
  exact congrArg String.mk (leChars_antisymm h1 h2)

theorem strLe_of_not_ge {s t : String} (hc : ¬ strLe t s = true) : strLe s t = true := by
  rcases Bool.or_eq_true_iff.mp (strLe_total t s) with h | h
  · exact absurd h hc
  · exact h

def insertSorted (s : String) : List String → List String
  | [] => [s]
  | t :: ts => if strLe t s then t :: insertSorted s ts else s :: t :: ts

def sortStr (l : List String) : List String := l.foldr insertSorted []

theorem insertSorted_perm (s : String) (l : List String) :
    (insertSorted s l).Perm (s :: l) := by
  induction l with
  | nil => simp [insertSorted]
  | cons t ts ih =>
    simp only [insertSorted]
    by_cases h : strLe t s
    · simp only [h, if_pos]
      exact (List.Perm.cons t ih).trans (List.Perm.swap s t ts)
    · simp [h]

theorem sortStr_perm (l : List String) : (sortStr l).Perm l := by
  induction l with
  | nil => simp [sortStr]
  | cons t ts ih =>
    exact ((insertSorted_perm t (sortStr ts)).trans (List.Perm.cons t ih))

theorem insertSorted_sorted {s : String} {l : List String}
    (h : List.Pairwise (fun a b => strLe a b = true) l) :
    List.Pairwise (fun a b => strLe a b = true) (insertSorted s l) := by
  induction l with
  | nil => simp [insertSorted]
  | cons t ts ih =>
    rcases List.pairwise_cons.mp h with ⟨ht, hts⟩
    simp only [insertSorted]
    by_cases hc : strLe t s
    · simp only [hc, if_pos]
      apply List.pairwise_cons.mpr
      refine ⟨?_, ih hts⟩
      intro x hx
      rcases List.mem_cons.mp ((insertSorted_perm s ts).mem_iff.mp hx) with hx | hx
      · subst hx; exact hc
      · exact ht x hx
    · simp only [hc, if_neg, Bool.not_eq_true]
      apply List.pairwise_cons.mpr
      refine ⟨?_, h⟩
      intro x hx
      have hst : strLe s t = true := strLe_of_not_ge hc
      rcases List.mem_cons.mp hx with hx | hx
      · subst hx; exact hst
      · exact strLe_trans hst (ht x hx)

theorem sortStr_sorted (l : List String) :
    List.Pairwise (fun a b => strLe a b = true) (sortStr l) := by
  induction l with
  | nil => simp [sortStr]
  | cons t ts ih => exact insertSorted_sorted ih

theorem sortStr_eq_of_perm {l1 l2 : List String} (h : l1.Perm l2) :
    sortStr l1 = sortStr l2 := by
  have hperm : (sortStr l1).Perm (sortStr l2) :=
    ((sortStr_perm l1).trans h).trans (sortStr_perm l2).symm
  have hanti : IsAntisymm String (fun a b => strLe a b = true) :=
    ⟨fun _ _ hab hba => strLe_antisymm hab hba⟩
  exact @List.eq_of_perm_of_sorted _ _ hanti _ _ hperm (sortStr_sorted l1) (sortStr_sorted l2)

theorem mem_sortStr {x : String} {l : List String} : x ∈ sortStr l ↔ x ∈ l :=
  (sortStr_perm l).mem_iff

/-! ## C4 and C10: partitioner properties -/

/-- The parent map of the basic Godot branch roots:
`Node3D` and `CanvasItem` are direct children of `Node`; `Node2D` and
`Control` are children of `CanvasItem`. -/
def pmBase : ParentMap :=
  [("Node3D", "Node"), ("Node2D", "CanvasItem"), ("Control", "CanvasItem"),
   ("CanvasItem", "Node")]

theorem mem_threeD_iff {x : String} {nts : List String} {pm : ParentMap} :
    x ∈ (categorize_types_by_hierarchy nts pm).threeD ↔
      x ∈ nts ∧ is_descendant_of pm x "Node3D" = true := by
  rw [categorize_threeD_eq]; simp [List.mem_filter]

theorem mem_twoD_iff {x : String} {nts : List String} {pm : ParentMap} :
    x ∈ (categorize_types_by_hierarchy nts pm).twoD ↔
      x ∈ nts ∧ is_descendant_of pm x "Node3D" = false ∧
        is_descendant_of pm x "Node2D" = true := by
  rw [categorize_twoD_eq]; simp [List.mem_filter, and_assoc]

theorem mem_control_iff {x : String} {nts : List String} {pm : ParentMap} :
    x ∈ (categorize_types_by_hierarchy nts pm).control ↔
      x ∈ nts ∧ is_descendant_of pm x "Node3D" = false ∧
        is_descendant_of pm x "Node2D" = false ∧
        is_descendant_of pm x "Control" = true := by
  rw [categorize_control_eq]; simp [List.mem_filter, and_assoc]

theorem mem_universal_iff {x : String} {nts : List String} {pm : ParentMap} :
    x ∈ (categorize_types_by_hierarchy nts pm).universal ↔
      x ∈ nts ∧ is_descendant_of pm x "Node3D" = false ∧
        is_descendant_of pm x "Node2D" = false ∧
        is_descendant_of pm x "Control" = false ∧
        lookupParent pm x = some "Node" := by
  rw [categorize_universal_eq]; simp [List.mem_filter, and_assoc]

/-- C4: for every list of node types and every parent map,
`categorize_types_by_hierarchy` assigns each class by first-match-wins
precedence (descendant of Node3D, else of Node2D, else of Control, else
direct child of `Node`, else nothing), evaluated per class independently,
and the four returned lists are pairwise disjoint. -/
theorem C4_categories_disjoint (nts : List String) (pm : ParentMap) :
    ((categorize_types_by_hierarchy nts pm).threeD =
      nts.filter (fun t => is_descendant_of pm t "Node3D")) ∧
    ((categorize_types_by_hierarchy nts pm).twoD =
      nts.filter (fun t =>
        !is_descendant_of pm t "Node3D" && is_descendant_of pm t "Node2D")) ∧
    ((categorize_types_by_hierarchy nts pm).control =
      nts.filter (fun t =>
        !is_descendant_of pm t "Node3D" && !is_descendant_of pm t "Node2D" &&
          is_descendant_of pm t "Control")) ∧
    ((categorize_types_by_hierarchy nts pm).universal =
      nts.filter (fun t =>
        !is_descendant_of pm t "Node3D" && !is_descendant_of pm t "Node2D" &&
          !is_descendant_of pm t "Control" && (lookupParent pm t == some "Node"))) ∧
    (∀ x, ¬(x ∈ (categorize_types_by_hierarchy nts pm).threeD ∧
            x ∈ (categorize_types_by_hierarchy nts pm).twoD)) ∧
    (∀ x, ¬(x ∈ (categorize_types_by_hierarchy nts pm).threeD ∧
            x ∈ (categorize_types_by_hierarchy nts pm).control)) ∧
    (∀ x, ¬(x ∈ (categorize_types_by_hierarchy nts pm).threeD ∧
            x ∈ (categorize_types_by_hierarchy nts pm).universal)) ∧
    (∀ x, ¬(x ∈ (categorize_types_by_hierarchy nts pm).twoD ∧
            x ∈ (categorize_types_by_hierarchy nts pm).control)) ∧
    (∀ x, ¬(x ∈ (categorize_types_by_hierarchy nts pm).twoD ∧
            x ∈ (categorize_types_by_hierarchy nts pm).universal)) ∧
    (∀ x, ¬(x ∈ (categorize_types_by_hierarchy nts pm).control ∧
            x ∈ (categorize_types_by_hierarchy nts pm).universal)) := by
  refine ⟨categorize_threeD_eq nts pm, categorize_twoD_eq nts pm,
    categorize_control_eq nts pm, categorize_universal_eq nts pm,
    ?_, ?_, ?_, ?_, ?_, ?_⟩
  · intro x hx
    rw [mem_threeD_iff, mem_twoD_iff] at hx
    exact absurd hx.1.2 (by simp [hx.2.2.1])
  · intro x hx
    rw [mem_threeD_iff, mem_control_iff] at hx
    exact absurd hx.1.2 (by simp [hx.2.2.1])
  · intro x hx
    rw [mem_threeD_iff, mem_universal_iff] at hx
    exact absurd hx.1.2 (by simp [hx.2.2.1])
  · intro x hx
    rw [mem_twoD_iff, mem_control_iff] at hx
    exact absurd hx.1.2.2 (by simp [hx.2.2.2.1])
  · intro x hx
    rw [mem_twoD_iff, mem_universal_iff] at hx
    exact absurd hx.1.2.2 (by simp [hx.2.2.2.1])
  · intro x hx
    rw [mem_control_iff, mem_universal_iff] at hx
    exact absurd hx.1.2.2.2 (by simp [hx.2.2.2.2.1])

/-- Witness for C4 at a concrete schema. -/
theorem C4_categories_disjoint_witness :
    ¬("Node3D" ∈ (categorize_types_by_hierarchy ["Node3D", "Node2D"] pmBase).threeD ∧
      "Node3D" ∈ (categorize_types_by_hierarchy ["Node3D", "Node2D"] pmBase).twoD) :=
  (C4_categories_disjoint ["Node3D", "Node2D"] pmBase).2.2.2.2.1 "Node3D"

/-- C10 counterexample: the claim quantifies over *every* parent map, but on
the cyclic map `x ↦ y ↦ x` the walk of `is_descendant_of` re-reaches `x`,
so `is_descendant_of(x, x)` is `true`, not `false`. -/
theorem C10_counterexample :
    is_descendant_of [("x", "y"), ("y", "x")] "x" "x" = true := by decide

/-- Along a successful walk of `isDescAux`, a rank function that strictly
decreases from child to parent forces `rank a < rank (starting point)`. -/
theorem isDescAux_rank {pm : ParentMap} {rank : String → Nat}
    (hall : pm.all (fun e => decide (rank e.2 < rank e.1)) = true) :
    ∀ (fuel : Nat) (a c : String), isDescAux pm a fuel c = true → rank a < rank c := by
  intro fuel
  induction fuel with
  | zero => intro a c h; simp [isDescAux] at h
  | succ n ih =>
    intro a c h
    simp only [isDescAux] at h
    split at h
    · exact absurd h (by simp)
    · rename_i p hl
      have hpc : rank p < rank c := by
        rcases Option.map_eq_some'.mp hl with ⟨e, he, hep⟩
        have hmem : e ∈ pm := List.mem_of_find?_eq_some he
        have hkey : (e.1 == c) = true := by simpa using List.find?_some he
        have hr : rank e.2 < rank e.1 :=
          of_decide_eq_true (List.all_eq_true.mp hall e hmem)
        rw [hep] at hr
        rwa [eq_of_beq hkey] at hr
      by_cases hpa : (p == a) = true
      · rw [eq_of_beq hpa] at hpc
        exact hpc
      · rw [if_neg hpa] at h
        exact Nat.lt_trans (ih a p h) hpc

/-- C10 (amended): on every *acyclic* parent map — one admitting a rank that
strictly decreases from child to parent, which the schema forest invariant
guarantees — the ancestor test is strict: `is_descendant_of(x, x)` is false
for every class.  Consequently on the base hierarchy the branch root
`Node3D` (direct parent `Node`) lands in "universal" rather than "3d", and
`Node2D` and `Control` (parent `CanvasItem`) land in none of the four
lists. -/
theorem C10_amended_strictness :
    (∀ (pm : ParentMap) (rank : String → Nat),
      pm.all (fun e => decide (rank e.2 < rank e.1)) = true →
      ∀ x, is_descendant_of pm x x = false) ∧
    categorize_types_by_hierarchy ["Node3D", "Node2D", "Control", "CanvasItem"] pmBase =
      ⟨[], [], [], ["Node3D", "CanvasItem"]⟩ := by
  constructor
  · intro pm rank hall x
    cases h : is_descendant_of pm x x with
    | false => rfl
    | true => exact absurd (isDescAux_rank hall _ x x h) (Nat.lt_irrefl _)
  · decide

/-- Witness for C10 (amended), with the concrete depth rank on `pmBase`. -/
theorem C10_amended_strictness_witness :
    is_descendant_of pmBase "CanvasItem" "CanvasItem" = false :=
  C10_amended_strictness.1 pmBase
    (fun s => if s == "Node" then 0 else if s == "CanvasItem" then 1 else 2)
    (by decide) "CanvasItem"


/-! ## The identifier normalizer
(`SpecialCases.fix_godot_class_name_for_rust`, claims C5 and C6)

The Python function applies `re.sub(r"[A-Z]{2,}(?=[A-Z][a-z]|$|\\d)", repl, name)`
after two literal overrides.  The `re.sub` scan is embedded directly: at
each position the engine greedily takes the maximal uppercase run.
Shortening the run by two or more characters leaves two uppercase
letters under the lookahead `(?=[A-Z][a-z]|$|\\d)`, which then fails; so
only the full run (`cond1`) or the run minus its last character
(`cond2`, preferred less, checked second) can match, and on failure the
scan advances one character. -/


/-- ASCII `[A-Z]` (the regex character class). -/
def isUpperAZ (c : Char) : Bool := 65 ≤ c.toNat && c.toNat ≤ 90
/-- ASCII `[a-z]`. -/
def isLowerAZ (c : Char) : Bool := 97 ≤ c.toNat && c.toNat ≤ 122
/-- ASCII `\d` (decimal digit). -/
def isDigitC (c : Char) : Bool := 48 ≤ c.toNat && c.toNat ≤ 57

/-- The lookahead `(?=[A-Z][a-z]|$|\d)` applied to the suffix after a
candidate match. -/
def lookaheadOk : List Char → Bool
  | [] => true
  | [a] => isDigitC a
  | a :: b :: _ => (isUpperAZ a && isLowerAZ b) || isDigitC a

/-- ASCII lower-casing, as `str.lower` acts on the A-Z-only matched group. -/
def toLowerAZ (c : Char) : Char :=
  if isUpperAZ c then Char.ofNat (c.toNat + 32) else c

/-- The replacement `group[0] + group[1:].lower()`. -/
def foldRun : List Char → List Char
  | [] => []
  | c :: cs => c :: cs.map toLowerAZ

/-- The maximal uppercase run at the head of the string. -/
def runOf (s : List Char) : List Char := s.takeWhile isUpperAZ
/-- The suffix after the maximal head run. -/
def restOf (s : List Char) : List Char := s.dropWhile isUpperAZ

/-- The regex `[A-Z]{2,}(?=[A-Z][a-z]|$|\d)` matches the whole head run.
Because the run is maximal, shortening the greedy `[A-Z]{2,}` by two or
more characters puts two uppercase letters under the lookahead, which
then fails; so only the full run and the run minus its last character
can match, and the engine prefers the longer. -/
def cond1 (s : List Char) : Bool :=
  decide (2 ≤ (runOf s).length) && lookaheadOk (restOf s)

/-- The regex matches the head run minus its final character. -/
def cond2 (s : List Char) : Bool :=
  decide (3 ≤ (runOf s).length) &&
    lookaheadOk ((runOf s).getLastD 'A' :: restOf s)

/-- A match of the regex starts at the head of `s`. -/
def matchesHere (s : List Char) : Bool := cond1 s || cond2 s

/-- One pass of `re.sub`: scan left to right; at a match, emit the folded
group and continue after it; otherwise advance one character.  `fuel`
bounds recursion depth (list length suffices, as every call shrinks the
list). -/
def fixLoopF : Nat → List Char → List Char
  | 0, s => s
  | _ + 1, [] => []
  | f + 1, c :: cs =>
    if cond1 (c :: cs) then
      foldRun (runOf (c :: cs)) ++ fixLoopF f (restOf (c :: cs))
    else if cond2 (c :: cs) then
      foldRun (runOf (c :: cs)).dropLast ++
        fixLoopF f ((runOf (c :: cs)).getLastD 'A' :: restOf (c :: cs))
    else
      c :: fixLoopF f cs

/-- `re.sub(r"[A-Z]{2,}(?=[A-Z][a-z]|$|\d)", repl, s)`. -/
def fixLoop (s : List Char) : List Char := fixLoopF s.length s

/-- `SpecialCases.fix_godot_class_name_for_rust` from
`godot_bevy_codegen/src/special_cases.py`: two literal overrides, then
the general acronym-folding regex substitution. -/
def fix_godot_class_name_for_rust (name : String) : String :=
  if name == "GPUParticlesCollisionSDF3D" then "GpuParticlesCollisionSdf3d"
  else if name == "SkeletonIK3D" then "SkeletonIk3d"
  else ⟨fixLoop name.data⟩

/-- No match of the folding regex starts anywhere in `s`. -/
def normal : List Char → Bool
  | [] => true
  | c :: cs => !matchesHere (c :: cs) && normal cs


theorem toLowerAZ_toNat {c : Char} (h : isUpperAZ c = true) :
    (toLowerAZ c).toNat = c.toNat + 32 := by
  simp only [isUpperAZ, Bool.and_eq_true, decide_eq_true_eq] at h
  have hv : (c.toNat + 32).isValidChar := Or.inl (by omega)
  rw [toLowerAZ, if_pos]
  · rw [Char.ofNat, dif_pos hv]
    simp only [Char.ofNatAux, Char.toNat, UInt32.toNat]
    simp [BitVec.toNat_ofNatLt]
  · simp [isUpperAZ]; omega

theorem toLowerAZ_not_upper {c : Char} (h : isUpperAZ c = true) :
    isUpperAZ (toLowerAZ c) = false := by
  have ht := toLowerAZ_toNat h
  simp only [isUpperAZ, Bool.and_eq_true, decide_eq_true_eq] at h
  simp only [isUpperAZ, ht, Bool.and_eq_false_iff]
  right; simp; omega

theorem upper_not_digit {c : Char} (h : isUpperAZ c = true) : isDigitC c = false := by
  simp only [isUpperAZ, Bool.and_eq_true, decide_eq_true_eq] at h
  simp only [isDigitC, Bool.and_eq_false_iff]
  right; simp; omega

theorem lower_not_upper {c : Char} (h : isLowerAZ c = true) : isUpperAZ c = false := by
  simp only [isLowerAZ, Bool.and_eq_true, decide_eq_true_eq] at h
  simp only [isUpperAZ, Bool.and_eq_false_iff]
  right; simp; omega

theorem lower_not_digit {c : Char} (h : isLowerAZ c = true) : isDigitC c = false := by
  simp only [isLowerAZ, Bool.and_eq_true, decide_eq_true_eq] at h
  simp only [isDigitC, Bool.and_eq_false_iff]
  right; simp; omega

theorem runOf_append_restOf (s : List Char) : runOf s ++ restOf s = s :=
  List.takeWhile_append_dropWhile isUpperAZ s

theorem length_runOf_restOf (s : List Char) :
    (runOf s).length + (restOf s).length = s.length := by
  have := congrArg List.length (runOf_append_restOf s)
  simpa [List.length_append] using this

theorem runOf_all_upper {s : List Char} : ∀ c ∈ runOf s, isUpperAZ c = true := by
  intro c hc
  exact List.mem_takeWhile_imp hc

theorem runOf_nil : runOf [] = [] := rfl

theorem restOf_nil : restOf [] = [] := rfl

theorem runOf_cons_pos {c : Char} {cs : List Char} (h : isUpperAZ c = true) :
    runOf (c :: cs) = c :: runOf cs := by
  simp [runOf, List.takeWhile_cons, h]

theorem runOf_cons_neg {c : Char} {cs : List Char} (h : isUpperAZ c = false) :
    runOf (c :: cs) = [] := by
  simp [runOf, List.takeWhile_cons, h]

theorem restOf_cons_pos {c : Char} {cs : List Char} (h : isUpperAZ c = true) :
    restOf (c :: cs) = restOf cs := by
  simp [restOf, List.dropWhile_cons, h]

theorem restOf_cons_neg {c : Char} {cs : List Char} (h : isUpperAZ c = false) :
    restOf (c :: cs) = c :: cs := by
  simp [restOf, List.dropWhile_cons, h]

theorem restOf_head_not_upper {s r : List Char} {x : Char} (h : restOf s = x :: r) :
    isUpperAZ x = false := by
  induction s with
  | nil => simp [restOf] at h
  | cons c cs ih =>
    by_cases hc : isUpperAZ c = true
    · rw [restOf_cons_pos hc] at h; exact ih h
    · have hc' : isUpperAZ c = false := by simpa using hc
      rw [restOf_cons_neg hc'] at h
      cases h; assumption

theorem fixLoopF_nil (f : Nat) : fixLoopF f [] = [] := by
  cases f <;> rfl

theorem fixLoopF_fuel :
    ∀ (f g : Nat) (s : List Char), s.length ≤ f → s.length ≤ g →
      fixLoopF f s = fixLoopF g s := by
  intro f
  induction f with
  | zero =>
    intro g s hf _
    have : s = [] := List.length_eq_zero.mp (Nat.le_zero.mp hf)
    subst this
    rw [fixLoopF_nil, fixLoopF_nil]
  | succ n ih =>
    intro g s hf hg
    cases s with
    | nil => rw [fixLoopF_nil, fixLoopF_nil]
    | cons c cs =>
      cases g with
      | zero => simp at hg
      | succ m =>
        have hsum := length_runOf_restOf (c :: cs)
        simp only [List.length_cons] at hf hg hsum
        simp only [fixLoopF]
        by_cases h1 : cond1 (c :: cs) = true
        · rw [if_pos h1, if_pos h1]
          have hrun : 2 ≤ (runOf (c :: cs)).length := by
            have := h1
            simp only [cond1, Bool.and_eq_true, decide_eq_true_eq] at this
            exact this.1
          congr 1
          exact ih m _ (by omega) (by omega)
        · rw [if_neg h1, if_neg h1]
          by_cases h2 : cond2 (c :: cs) = true
          · rw [if_pos h2, if_pos h2]
            have hrun : 3 ≤ (runOf (c :: cs)).length := by
              have := h2
              simp only [cond2, Bool.and_eq_true, decide_eq_true_eq] at this
              exact this.1
            congr 1
            exact ih m _ (by simp only [List.length_cons]; omega)
              (by simp only [List.length_cons]; omega)
          · rw [if_neg h2, if_neg h2]
            congr 1
            exact ih m cs (by omega) (by omega)

theorem fixLoop_nil : fixLoop [] = [] := rfl

theorem fixLoop_eq_b1 {c : Char} {cs : List Char} (h1 : cond1 (c :: cs) = true) :
    fixLoop (c :: cs) = foldRun (runOf (c :: cs)) ++ fixLoop (restOf (c :: cs)) := by
  have hsum := length_runOf_restOf (c :: cs)
  have hrun : 2 ≤ (runOf (c :: cs)).length := by
    simp only [cond1, Bool.and_eq_true, decide_eq_true_eq] at h1
    exact h1.1
  simp only [List.length_cons] at hsum
  show fixLoopF (cs.length + 1) (c :: cs) = _
  simp only [fixLoopF, if_pos h1]
  congr 1
  exact fixLoopF_fuel cs.length (restOf (c :: cs)).length _ (by omega) (by omega)

theorem fixLoop_eq_b2 {c : Char} {cs : List Char}
    (h1 : cond1 (c :: cs) = false) (h2 : cond2 (c :: cs) = true) :
    fixLoop (c :: cs) = foldRun (runOf (c :: cs)).dropLast ++
      fixLoop ((runOf (c :: cs)).getLastD 'A' :: restOf (c :: cs)) := by
  have hsum := length_runOf_restOf (c :: cs)
  have hrun : 3 ≤ (runOf (c :: cs)).length := by
    simp only [cond2, Bool.and_eq_true, decide_eq_true_eq] at h2
    exact h2.1
  simp only [List.length_cons] at hsum
  show fixLoopF (cs.length + 1) (c :: cs) = _
  simp only [fixLoopF, h1, if_pos h2, Bool.false_eq_true, if_false]
  congr 1
  exact fixLoopF_fuel cs.length _ _ (by simp only [List.length_cons]; omega)
    (by simp only [List.length_cons]; omega)

theorem fixLoop_eq_b3 {c : Char} {cs : List Char} (h : matchesHere (c :: cs) = false) :
    fixLoop (c :: cs) = c :: fixLoop cs := by
  have h12 : cond1 (c :: cs) = false ∧ cond2 (c :: cs) = false := by
    simpa [matchesHere] using h
  show fixLoopF (cs.length + 1) (c :: cs) = _
  simp only [fixLoopF, h12.1, h12.2, Bool.false_eq_true, if_false]
  rfl

theorem mh_not_upper {c : Char} {r : List Char} (h : isUpperAZ c = false) :
    matchesHere (c :: r) = false := by
  simp [matchesHere, cond1, cond2, runOf_cons_neg h]

theorem mh_single {c : Char} : matchesHere [c] = false := by
  by_cases h : isUpperAZ c = true
  · simp [matchesHere, cond1, cond2, runOf_cons_pos h, runOf_nil]
  · exact mh_not_upper (by simpa using h)

theorem mh_upper_notupper2 {u d : Char} {r : List Char}
    (hu : isUpperAZ u = true) (hd : isUpperAZ d = false) :
    matchesHere (u :: d :: r) = false := by
  simp [matchesHere, cond1, cond2, runOf_cons_pos hu, runOf_cons_neg hd]

theorem runOf_upper_prefix {U Z : List Char} {r : Char}
    (hU : ∀ c ∈ U, isUpperAZ c = true) (hr : isUpperAZ r = false) :
    runOf (U ++ r :: Z) = U ∧ restOf (U ++ r :: Z) = r :: Z := by
  induction U with
  | nil => simp [runOf_cons_neg hr, restOf_cons_neg hr]
  | cons u U' ih =>
    have hu : isUpperAZ u = true := hU u (by simp)
    have hU' : ∀ c ∈ U', isUpperAZ c = true := fun c hc => hU c (by simp [hc])
    rcases ih hU' with ⟨h1, h2⟩
    constructor
    · rw [List.cons_append, runOf_cons_pos hu, h1]
    · rw [List.cons_append, restOf_cons_pos hu, h2]

theorem getLastD_mem_of_ne_nil {l : List Char} {d : Char} (h : l ≠ []) :
    l.getLastD d ∈ l := by
  induction l with
  | nil => exact absurd rfl h
  | cons a t ih =>
    cases t with
    | nil => simp [List.getLastD]
    | cons b t2 =>
      have := ih (by simp)
      simp only [List.getLastD] at *
      simp [this]

theorem mh_passthrough1 {U Z : List Char} {r : Char}
    (hU : ∀ c ∈ U, isUpperAZ c = true)
    (hru : isUpperAZ r = false) (hrd : isDigitC r = false) (hrl : isLowerAZ r = false) :
    matchesHere (U ++ r :: Z) = false := by
  rcases runOf_upper_prefix (Z := Z) hU hru with ⟨hrun, hrest⟩
  have hla1 : lookaheadOk (r :: Z) = false := by
    cases Z with
    | nil => simpa [lookaheadOk] using hrd
    | cons z zs => simp [lookaheadOk, hru, hrd]
  have hc1 : cond1 (U ++ r :: Z) = false := by
    simp [cond1, hrest, hla1]
  have hc2 : cond2 (U ++ r :: Z) = false := by
    cases U with
    | nil =>
      simp [cond2, runOf_cons_neg hru]
    | cons u0 U' =>
      have hlast : (u0 :: U').getLastD 'A' ∈ (u0 :: U') :=
        getLastD_mem_of_ne_nil (by simp)
      have hlastu : isUpperAZ ((u0 :: U').getLastD 'A') = true := hU _ hlast
      have hlastd : isDigitC ((u0 :: U').getLastD 'A') = false :=
        upper_not_digit hlastu
      simp only [cond2, hrun, hrest, lookaheadOk]
      rw [hrl, hlastd]
      simp
  simp [matchesHere, hc1, hc2]

theorem mh_passthrough2 {U Z : List Char} {r : Char}
    (hU : ∀ c ∈ U, isUpperAZ c = true) (hlen : U.length ≤ 2)
    (hru : isUpperAZ r = false) (hrd : isDigitC r = false) :
    matchesHere (U ++ r :: Z) = false := by
  rcases runOf_upper_prefix (Z := Z) hU hru with ⟨hrun, hrest⟩
  have hla1 : lookaheadOk (r :: Z) = false := by
    cases Z with
    | nil => simpa [lookaheadOk] using hrd
    | cons z zs => simp [lookaheadOk, hru, hrd]
  have hc1 : cond1 (U ++ r :: Z) = false := by
    simp [cond1, hrest, hla1]
  have hc2 : cond2 (U ++ r :: Z) = false := by
    simp only [cond2, hrun, Bool.and_eq_false_iff]
    left; simp; omega
  simp [matchesHere, hc1, hc2]

theorem fixLoop_cons_not_upper {c : Char} {cs : List Char} (h : isUpperAZ c = false) :
    fixLoop (c :: cs) = c :: fixLoop cs :=
  fixLoop_eq_b3 (mh_not_upper h)

theorem fixLoop_passthrough {U Z : List Char} {r : Char}
    (hU : ∀ c ∈ U, isUpperAZ c = true)
    (hru : isUpperAZ r = false) (hrd : isDigitC r = false) (hrl : isLowerAZ r = false) :
    fixLoop (U ++ r :: Z) = U ++ fixLoop (r :: Z) := by
  induction U with
  | nil => simp
  | cons u U' ih =>
    have hU' : ∀ c ∈ U', isUpperAZ c = true := fun c hc => hU c (by simp [hc])
    have hmh : matchesHere (u :: (U' ++ r :: Z)) = false := by
      have := mh_passthrough1 (U := u :: U') (Z := Z) hU hru hrd hrl
      simpa using this
    calc fixLoop ((u :: U') ++ r :: Z) = u :: fixLoop (U' ++ r :: Z) :=
        fixLoop_eq_b3 hmh
    _ = u :: (U' ++ fixLoop (r :: Z)) := by rw [ih hU']
    _ = (u :: U') ++ fixLoop (r :: Z) := rfl

theorem normal_cons {c : Char} {cs : List Char} :
    normal (c :: cs) = true ↔ matchesHere (c :: cs) = false ∧ normal cs = true := by
  simp [normal]

theorem normal_append_not_upper {X Y : List Char}
    (hX : ∀ x ∈ X, isUpperAZ x = false) (hY : normal Y = true) :
    normal (X ++ Y) = true := by
  induction X with
  | nil => simpa using hY
  | cons x X' ih =>
    have hx : isUpperAZ x = false := hX x (by simp)
    have hX' : ∀ c ∈ X', isUpperAZ c = false := fun c hc => hX c (by simp [hc])
    rw [List.cons_append]
    exact normal_cons.mpr ⟨mh_not_upper hx, ih hX'⟩

theorem normal_foldRun_append {W Y : List Char}
    (hW : ∀ c ∈ W, isUpperAZ c = true) (hlen : 2 ≤ W.length) (hY : normal Y = true) :
    normal (foldRun W ++ Y) = true := by
  cases W with
  | nil => simp at hlen
  | cons w ws =>
    cases ws with
    | nil => simp at hlen
    | cons w2 ws' =>
      have hw : isUpperAZ w = true := hW w (by simp)
      have hw2 : isUpperAZ w2 = true := hW w2 (by simp)
      have hmap : ∀ x ∈ (w2 :: ws').map toLowerAZ, isUpperAZ x = false := by
        intro x hx
        rcases List.mem_map.mp hx with ⟨y, hy, hyx⟩
        have hyu : isUpperAZ y = true := hW y (by simp [hy])
        rw [← hyx]
        exact toLowerAZ_not_upper hyu
      refine normal_cons.mpr ⟨?_, ?_⟩
      · exact mh_upper_notupper2 hw (toLowerAZ_not_upper hw2)
      · exact normal_append_not_upper hmap hY

theorem normal_fixLoop_id {s : List Char} (h : normal s = true) : fixLoop s = s := by
  induction s with
  | nil => rfl
  | cons c cs ih =>
    simp only [normal, Bool.and_eq_true, Bool.not_eq_true'] at h
    rw [fixLoop_eq_b3 h.1, ih h.2]

theorem normal_fixLoop_aux :
    ∀ (n : Nat) (s : List Char), s.length ≤ n → normal (fixLoop s) = true := by
  intro n
  induction n with
  | zero =>
    intro s hs
    have : s = [] := List.length_eq_zero.mp (Nat.le_zero.mp hs)
    subst this
    rfl
  | succ n ih =>
    intro s hs
    cases s with
    | nil => rfl
    | cons c cs =>
      have hsum := length_runOf_restOf (c :: cs)
      simp only [List.length_cons] at hsum hs
      by_cases h1 : cond1 (c :: cs) = true
      · rw [fixLoop_eq_b1 h1]
        have hrun2 : 2 ≤ (runOf (c :: cs)).length := by
          simp only [cond1, Bool.and_eq_true, decide_eq_true_eq] at h1
          exact h1.1
        exact normal_foldRun_append runOf_all_upper hrun2
          (ih (restOf (c :: cs)) (by omega))
      · have h1f : cond1 (c :: cs) = false := by simpa using h1
        by_cases h2 : cond2 (c :: cs) = true
        · rw [fixLoop_eq_b2 h1f h2]
          have hrun3 : 3 ≤ (runOf (c :: cs)).length := by
            simp only [cond2, Bool.and_eq_true, decide_eq_true_eq] at h2
            exact h2.1
          apply normal_foldRun_append
          · intro x hx
            exact runOf_all_upper x (List.dropLast_sublist _ |>.subset hx)
          · rw [List.length_dropLast]; omega
          · apply ih
            simp only [List.length_cons]
            omega
        · have h2f : cond2 (c :: cs) = false := by simpa using h2
          have hmh : matchesHere (c :: cs) = false := by
            simp [matchesHere, h1f, h2f]
          rw [fixLoop_eq_b3 hmh]
          have hncs : normal (fixLoop cs) = true := ih cs (by omega)
          refine normal_cons.mpr ⟨?_, hncs⟩
          by_cases hc : isUpperAZ c = true
          · cases cs with
            | nil => exact mh_single
            | cons d ds =>
              by_cases hd : isUpperAZ d = true
              · -- head run has length ≥ 2 and the branch conditions failed
                have hrunc : runOf (c :: d :: ds) = c :: runOf (d :: ds) :=
                  runOf_cons_pos hc
                have hrund : runOf (d :: ds) = d :: runOf ds := runOf_cons_pos hd
                have hrun2 : 2 ≤ (runOf (c :: d :: ds)).length := by
                  rw [hrunc, hrund]; simp
                have hla : lookaheadOk (restOf (c :: d :: ds)) = false := by
                  have h' := h1f
                  simp only [cond1, Bool.and_eq_false_iff] at h'
                  rcases h' with h' | h'
                  · exact absurd hrun2 (by simpa using h')
                  · exact h'
                obtain ⟨r0, rt, hrest⟩ :
                    ∃ r0 rt, restOf (c :: d :: ds) = r0 :: rt := by
                  cases hrr : restOf (c :: d :: ds) with
                  | nil => rw [hrr] at hla; simp [lookaheadOk] at hla
                  | cons a b => exact ⟨a, b, rfl⟩
                have hr0u : isUpperAZ r0 = false := restOf_head_not_upper hrest
                have hr0d : isDigitC r0 = false := by
                  rw [hrest] at hla
                  cases rt with
                  | nil => simpa [lookaheadOk] using hla
                  | cons z zs =>
                    simp only [lookaheadOk, Bool.or_eq_false_iff] at hla
                    exact hla.2
                have h2f' := h2f
                simp only [cond2, Bool.and_eq_false_iff] at h2f'
                rcases h2f' with hlen3 | hlaf
                · -- the run is exactly [c, d]
                  have hlen2 : (runOf (c :: d :: ds)).length = 2 := by
                    have : ¬ 3 ≤ (runOf (c :: d :: ds)).length := by simpa using hlen3
                    omega
                  have hds0 : runOf ds = [] := by
                    rw [hrunc, hrund] at hlen2
                    simp only [List.length_cons] at hlen2
                    exact List.length_eq_zero.mp (by omega)
                  have hrds : restOf (d :: ds) = r0 :: rt := by
                    rw [← restOf_cons_pos hc]; exact hrest
                  have hds_eq : ds = r0 :: rt := by
                    have hadd := runOf_append_restOf ds
                    rw [hds0, List.nil_append] at hadd
                    rw [← hadd, ← hrds, restOf_cons_pos hd]
                  rw [hds_eq]
                  rw [fixLoop_eq_b3 (mh_upper_notupper2 hd hr0u),
                      fixLoop_cons_not_upper hr0u]
                  have hU2 : ∀ x ∈ [c, d], isUpperAZ x = true := by
                    intro x hx
                    rcases List.mem_cons.mp hx with h | h
                    · subst h; exact hc
                    · simp at h; subst h; exact hd
                  exact mh_passthrough2 (U := [c, d]) (Z := fixLoop rt) hU2
                    (by simp) hr0u hr0d
                · -- the lookahead for the shortened run failed: r0 is not lowercase
                  have hlast_mem : (runOf (c :: d :: ds)).getLastD 'A' ∈
                      runOf (c :: d :: ds) := by
                    apply getLastD_mem_of_ne_nil
                    rw [hrunc]; simp
                  have hlastu := runOf_all_upper _ hlast_mem
                  have hr0l : isLowerAZ r0 = false := by
                    rw [hrest] at hlaf
                    simp only [lookaheadOk, Bool.or_eq_false_iff,
                      Bool.and_eq_false_iff] at hlaf
                    rcases hlaf.1 with h' | h'
                    · exact absurd hlastu (by simpa using h')
                    · exact h'
                  have hrds : restOf (d :: ds) = r0 :: rt := by
                    rw [← restOf_cons_pos hc]; exact hrest
                  have hcs_eq : d :: ds = runOf (d :: ds) ++ r0 :: rt := by
                    rw [← hrds, runOf_append_restOf]
                  rw [hcs_eq, fixLoop_passthrough runOf_all_upper hr0u hr0d hr0l,
                      fixLoop_cons_not_upper hr0u]
                  have hUall : ∀ x ∈ c :: runOf (d :: ds), isUpperAZ x = true := by
                    intro x hx
                    rcases List.mem_cons.mp hx with h' | h'
                    · subst h'; exact hc
                    · exact runOf_all_upper _ h'
                  have := mh_passthrough1 (U := c :: runOf (d :: ds))
                    (Z := fixLoop rt) hUall hr0u hr0d hr0l
                  simpa using this
              · have hd' : isUpperAZ d = false := by simpa using hd
                rw [fixLoop_cons_not_upper hd']
                exact mh_upper_notupper2 hc hd'
          · exact mh_not_upper (by simpa using hc)

theorem normal_fixLoop (s : List Char) : normal (fixLoop s) = true :=
  normal_fixLoop_aux s.length s (Nat.le_refl _)

theorem fixLoop_idem (s : List Char) : fixLoop (fixLoop s) = fixLoop s :=
  normal_fixLoop_id (normal_fixLoop s)

/-- The general folding rule alone (the `re.sub` without the two literal
overrides), used to express that the overrides are not derivable from it. -/
def general_fold_rule (name : String) : String := ⟨fixLoop name.data⟩

theorem fix_not_special {name : String}
    (h1 : name ≠ "GPUParticlesCollisionSDF3D") (h2 : name ≠ "SkeletonIK3D") :
    fix_godot_class_name_for_rust name = general_fold_rule name := by
  simp only [fix_godot_class_name_for_rust, beq_iff_eq, if_neg h1, if_neg h2]
  rfl

theorem fix_godot_idem (N : String) :
    fix_godot_class_name_for_rust (fix_godot_class_name_for_rust N) =
      fix_godot_class_name_for_rust N := by
  by_cases hN1 : N = "GPUParticlesCollisionSDF3D"
  · subst hN1; decide
  · by_cases hN2 : N = "SkeletonIK3D"
    · subst hN2; decide
    · rw [fix_not_special hN1 hN2]
      have hns1 : general_fold_rule N ≠ "GPUParticlesCollisionSDF3D" := by
        intro hEq
        have hdata : fixLoop N.data = "GPUParticlesCollisionSDF3D".data :=
          congrArg String.data hEq
        have hnorm := normal_fixLoop N.data
        rw [hdata] at hnorm
        have hcon : normal "GPUParticlesCollisionSDF3D".data = false := by decide
        rw [hcon] at hnorm
        cases hnorm
      have hns2 : general_fold_rule N ≠ "SkeletonIK3D" := by
        intro hEq
        have hdata : fixLoop N.data = "SkeletonIK3D".data :=
          congrArg String.data hEq
        have hnorm := normal_fixLoop N.data
        rw [hdata] at hnorm
        have hcon : normal "SkeletonIK3D".data = false := by decide
        rw [hcon] at hnorm
        cases hnorm
      rw [fix_not_special hns1 hns2]
      exact congrArg String.mk (fixLoop_idem N.data)

/-- C5: the normalizer maps the six literal spec examples exactly, and
exactly two names are special-cased literally: outside the two overrides
the function is the general folding rule, and on the two overrides the
literal result differs from what the general rule derives. -/
theorem C5_normalizer_examples :
    fix_godot_class_name_for_rust "CSGBox3D" = "CsgBox3D" ∧
    fix_godot_class_name_for_rust "VoxelGI" = "VoxelGi" ∧
    fix_godot_class_name_for_rust "XRAnchor3D" = "XrAnchor3D" ∧
    fix_godot_class_name_for_rust "OpenXRCompositionLayerQuad" =
      "OpenXrCompositionLayerQuad" ∧
    fix_godot_class_name_for_rust "LODGroup" = "LodGroup" ∧
    fix_godot_class_name_for_rust "HTTPServerXYZ" = "HttpServerXyz" ∧
    fix_godot_class_name_for_rust "GPUParticlesCollisionSDF3D" =
      "GpuParticlesCollisionSdf3d" ∧
    fix_godot_class_name_for_rust "SkeletonIK3D" = "SkeletonIk3d" ∧
    general_fold_rule "GPUParticlesCollisionSDF3D" ≠ "GpuParticlesCollisionSdf3d" ∧
    general_fold_rule "SkeletonIK3D" ≠ "SkeletonIk3d" ∧
    (∀ name : String, name ≠ "GPUParticlesCollisionSDF3D" → name ≠ "SkeletonIK3D" →
      fix_godot_class_name_for_rust name = general_fold_rule name) := by
  refine ⟨by decide, by decide, by decide, by decide, by decide, by decide,
    by decide, by decide, by decide, by decide, ?_⟩
  intro name h1 h2
  exact fix_not_special h1 h2

/-- Witness for C5: the final clause applied at a name that is not
special-cased. -/
theorem C5_normalizer_examples_witness :
    fix_godot_class_name_for_rust "Sprite2D" = general_fold_rule "Sprite2D" :=
  C5_normalizer_examples.2.2.2.2.2.2.2.2.2.2 "Sprite2D" (by decide) (by decide)

/-- C6: the static-identifier normalizer is idempotent on every input
string, including the two special-cased names and arbitrary strings with
uppercase runs and digits. -/
theorem C6_normalizer_idempotent (N : String) :
    fix_godot_class_name_for_rust (fix_godot_class_name_for_rust N) =
      fix_godot_class_name_for_rust N :=
  fix_godot_idem N



/-! ## The signal constant-name normalizer
(`gen_signal_names.signal_name_to_const`, claim C7) -/


/-- `[a-zA-Z0-9_]`: the characters the constant-name pass keeps. -/
def keepAl (c : Char) : Bool :=
  isLowerAZ c || isUpperAZ c || isDigitC c || c == '_'

/-- `re.sub("([a-z0-9])([A-Z])", r"\1_\2", s)`: insert an underscore at
every lowercase/digit-to-uppercase boundary; a match consumes both
characters, so the scan continues after the uppercase letter. -/
def camelSub : List Char → List Char
  | a :: b :: rest =>
    if (isLowerAZ a || isDigitC a) && isUpperAZ b then
      a :: '_' :: b :: camelSub rest
    else
      a :: camelSub (b :: rest)
  | l => l

/-- `re.sub(r"[^a-zA-Z0-9_]", "_", s)` acts on each character alone. -/
def replaceChar (c : Char) : Char := if keepAl c then c else '_'

/-- ASCII upper-casing; `str.upper()` is applied after every character
has been forced into `[a-zA-Z0-9_]`, where it acts only on `a-z`. -/
def toUpperAZ (c : Char) : Char :=
  if isLowerAZ c then Char.ofNat (c.toNat - 32) else c

/-- `re.sub(r"_+", "_", s)`: collapse each underscore run to one. -/
def collapseU : List Char → List Char
  | [] => []
  | [c] => [c]
  | a :: b :: t =>
    if a == '_' && b == '_' then collapseU (b :: t) else a :: collapseU (b :: t)

/-- `s.strip("_")`. -/
def stripUnderscores (l : List Char) : List Char :=
  ((l.dropWhile (· == '_')).reverse.dropWhile (· == '_')).reverse

/-- `if result and result[0].isdigit(): result = "_" + result`. -/
def digitPrefix : List Char → List Char
  | [] => []
  | c :: t => if isDigitC c then '_' :: c :: t else c :: t

/-- `signal_name_to_const` from `godot_bevy_codegen/src/gen_signal_names.py`. -/
def signal_name_to_const (signal_name : String) : String :=
  if signal_name = "" then "SIGNAL"
  else
    match digitPrefix (stripUnderscores (collapseU
        (((camelSub signal_name.data).map replaceChar).map toUpperAZ))) with
    | [] => "SIGNAL"
    | c :: t => ⟨c :: t⟩


/-- The output alphabet `[A-Z0-9_]` claimed for constant names. -/
def isConstChar (c : Char) : Bool := isUpperAZ c || isDigitC c || c == '_'

theorem toUpperAZ_toNat {c : Char} (h : isLowerAZ c = true) :
    (toUpperAZ c).toNat = c.toNat - 32 := by
  simp only [isLowerAZ, Bool.and_eq_true, decide_eq_true_eq] at h
  have hv : (c.toNat - 32).isValidChar := Or.inl (by omega)
  rw [toUpperAZ, if_pos]
  · rw [Char.ofNat, dif_pos hv]
    simp only [Char.ofNatAux, Char.toNat, UInt32.toNat]
    simp [BitVec.toNat_ofNatLt]
  · simp [isLowerAZ]; omega

theorem keep_replaceChar (c : Char) : keepAl (replaceChar c) = true := by
  by_cases h : keepAl c = true
  · simp [replaceChar, h]
  · simp only [replaceChar, h]
    simp [keepAl]

theorem toUpperAZ_const {c : Char} (h : keepAl c = true) :
    isConstChar (toUpperAZ c) = true := by
  simp only [keepAl, Bool.or_eq_true] at h
  rcases h with ((hl | hu) | hd) | he
  · have ht := toUpperAZ_toNat hl
    simp only [isLowerAZ, Bool.and_eq_true, decide_eq_true_eq] at hl
    simp only [isConstChar, isUpperAZ, ht, Bool.or_eq_true, Bool.and_eq_true,
      decide_eq_true_eq]
    left; omega
  · have : isLowerAZ c = false := by
      simp only [isUpperAZ, Bool.and_eq_true, decide_eq_true_eq] at hu
      simp only [isLowerAZ, Bool.and_eq_false_iff]
      left; simp; omega
    simp [toUpperAZ, this, isConstChar, hu]
  · have : isLowerAZ c = false := by
      simp only [isDigitC, Bool.and_eq_true, decide_eq_true_eq] at hd
      simp only [isLowerAZ, Bool.and_eq_false_iff]
      left; simp; omega
    simp [toUpperAZ, this, isConstChar, hd]
  · have he' : c = '_' := by simpa using he
    subst he'
    decide

theorem mem_collapseU : ∀ (l : List Char) (c : Char), c ∈ collapseU l → c ∈ l := by
  intro l
  induction l with
  | nil => simp [collapseU]
  | cons a t ih =>
    cases t with
    | nil => simp [collapseU]
    | cons b t2 =>
      intro c hc
      simp only [collapseU] at hc
      by_cases hab : (a == '_' && b == '_') = true
      · rw [if_pos hab] at hc
        exact List.mem_cons_of_mem a (ih c hc)
      · rw [if_neg hab] at hc
        rcases List.mem_cons.mp hc with h | h
        · simp [h]
        · exact List.mem_cons_of_mem a (ih c h)

theorem mem_stripUnderscores {l : List Char} {c : Char}
    (h : c ∈ stripUnderscores l) : c ∈ l := by
  simp only [stripUnderscores] at h
  rw [List.mem_reverse] at h
  have h1 := (List.dropWhile_sublist _).subset h
  rw [List.mem_reverse] at h1
  exact (List.dropWhile_sublist _).subset h1

theorem mem_digitPrefix {l : List Char} {c : Char} (h : c ∈ digitPrefix l) :
    c = '_' ∨ c ∈ l := by
  cases l with
  | nil => simp [digitPrefix] at h
  | cons y ys =>
    simp only [digitPrefix] at h
    by_cases hy : isDigitC y = true
    · rw [if_pos hy] at h
      rcases List.mem_cons.mp h with h | h
      · exact Or.inl h
      · exact Or.inr h
    · rw [if_neg hy] at h
      exact Or.inr h

/-- C7 (amended): for every signal name the constant-name output is
non-empty, uses only `[A-Z0-9_]`, never starts with a digit (though it may
start with an underscore followed by a digit, exactly when the normalized
form would start with a digit), and the empty input yields the sentinel
"SIGNAL". -/
theorem C7_amended_const_name (s : String) :
    signal_name_to_const s ≠ "" ∧
    (∀ c ∈ (signal_name_to_const s).data, isConstChar c = true) ∧
    (∀ c t, (signal_name_to_const s).data = c :: t → isDigitC c = false) ∧
    (s = "" → signal_name_to_const s = "SIGNAL") := by
  by_cases hs : s = ""
  · subst hs
    refine ⟨by decide, by decide, ?_, fun _ => rfl⟩
    intro c t h
    have : c = 'S' := by
      have : ("SIGNAL" : String).data = c :: t := h
      simp at this
      exact this.1.symm
    subst this
    decide
  · have hchars : ∀ c ∈ stripUnderscores (collapseU
        (((camelSub s.data).map replaceChar).map toUpperAZ)), isConstChar c = true := by
      intro c hc
      have h1 := mem_collapseU _ _ (mem_stripUnderscores hc)
      rcases List.mem_map.mp h1 with ⟨d, hd, hdc⟩
      rcases List.mem_map.mp hd with ⟨e, _, hed⟩
      rw [← hdc, ← hed]
      exact toUpperAZ_const (by rw [← hed] at hdc; exact keep_replaceChar e)
    cases hD : digitPrefix (stripUnderscores (collapseU
        (((camelSub s.data).map replaceChar).map toUpperAZ))) with
    | nil =>
      have hres : signal_name_to_const s = "SIGNAL" := by
        simp only [signal_name_to_const, if_neg hs, hD]
      refine ⟨by rw [hres]; decide, by rw [hres]; decide, ?_, fun h => absurd h hs⟩
      intro c t h
      rw [hres] at h
      have : c = 'S' := by
        have : ("SIGNAL" : String).data = c :: t := h
        simp at this
        exact this.1.symm
      subst this
      decide
    | cons c0 t0 =>
      have hres : signal_name_to_const s = ⟨c0 :: t0⟩ := by
        simp only [signal_name_to_const, if_neg hs, hD]
      have hmemD : ∀ c ∈ c0 :: t0, isConstChar c = true := by
        intro c hc
        rw [← hD] at hc
        rcases mem_digitPrefix hc with h | h
        · subst h; decide
        · exact hchars c h
      refine ⟨?_, ?_, ?_, fun h => absurd h hs⟩
      · rw [hres]
        intro hcon
        have : (String.mk (c0 :: t0)).data = ("" : String).data := by rw [hcon]
        simp at this
      · intro c hc
        rw [hres] at hc
        exact hmemD c hc
      · intro c t h
        rw [hres] at h
        have hct : c = c0 := by
          have : c0 :: t0 = c :: t := h
          cases this; rfl
        subst hct
        -- c0 is the head of digitPrefix X, which is never a digit
        cases hX : stripUnderscores (collapseU
            (((camelSub s.data).map replaceChar).map toUpperAZ)) with
        | nil => rw [hX] at hD; simp [digitPrefix] at hD
        | cons y ys =>
          rw [hX] at hD
          simp only [digitPrefix] at hD
          by_cases hy : isDigitC y = true
          · rw [if_pos hy] at hD
            injection hD with h1 _
            rw [← h1]
            decide
          · rw [if_neg hy] at hD
            injection hD with h1 _
            rw [← h1]
            simpa using hy

/-- C7 counterexample: the claim says the output never starts with an
underscore followed by a digit, but on input "3d" the code produces
"_3D", whose first two characters are an underscore and the digit 3. -/
theorem C7_counterexample :
    signal_name_to_const "3d" = "_3D" ∧
    (signal_name_to_const "3d").data = ['_', '3', 'D'] ∧ isDigitC '3' = true := by
  refine ⟨by decide, by decide, by decide⟩

/-- Witness for C7 (amended) at the signal name "pressed": the head of the
emitted constant is not a digit. -/
theorem C7_amended_const_name_witness : isDigitC 'P' = false :=
  (C7_amended_const_name "pressed").2.2.1 'P' "RESSED".data (by decide)

/-! ## Gating (`special_cases.get_type_cfg_attribute`, claim C8) -/

/-- `SpecialCases.wasm_excluded_types`. -/
def wasm_excluded_types : List String :=
  ["OpenXRRenderModel", "OpenXRRenderModelManager"]

/-- `SpecialCases.experimental_classes`. -/
def experimental_classes : List String :=
  ["AudioSample", "AudioSamplePlayback", "Compositor", "CompositorEffect",
   "GraphEdit", "GraphElement", "GraphFrame", "GraphNode",
   "NavigationAgent2D", "NavigationAgent3D", "NavigationLink2D",
   "NavigationLink3D", "NavigationMesh",
   "NavigationMeshSourceGeometryData2D", "NavigationMeshSourceGeometryData3D",
   "NavigationObstacle2D", "NavigationObstacle3D",
   "NavigationPathQueryParameters2D", "NavigationPathQueryParameters3D",
   "NavigationPathQueryResult2D", "NavigationPathQueryResult3D",
   "NavigationPolygon", "NavigationRegion2D", "NavigationRegion3D",
   "NavigationServer2D", "NavigationServer3D", "Parallax2D",
   "SkeletonModification2D", "SkeletonModification2DCCDIK",
   "SkeletonModification2DFABRIK", "SkeletonModification2DJiggle",
   "SkeletonModification2DLookAt", "SkeletonModification2DPhysicalBones",
   "SkeletonModification2DStackHolder", "SkeletonModification2DTwoBoneIK",
   "SkeletonModificationStack2D", "StreamPeerGZIP", "XRBodyModifier3D",
   "XRBodyTracker", "XRFaceModifier3D", "XRFaceTracker"]

/-- `get_type_cfg_attribute`, parameterized by the two gating sets it
reads (`SpecialCases.wasm_excluded_types` and
`SpecialCases.experimental_classes` in the source): the WASM-exclusion
predicate is checked first, then the experimental predicate; the pieces
are joined with ", " inside `#[cfg(...)]`. -/
def get_type_cfg_attribute_with (wasm exp : List String) (node_type : String) :
    String :=
  ((fun cfg =>
    if cfg = ([] : List String) then ""
    else "#[cfg(" ++ String.intercalate ", " cfg ++ ")]\n")
   ((if node_type ∈ wasm then ["not(feature = \"experimental-wasm\")\n"] else []) ++
    (if node_type ∈ exp then ["feature = \"experimental-godot-api\"\n"] else [])))

/-- `get_type_cfg_attribute` with the source's concrete sets; every
emitter (node markers, type checking, signal names) obtains its guard
text for a class by calling this one function. -/
def get_type_cfg_attribute (node_type : String) : String :=
  get_type_cfg_attribute_with wasm_excluded_types experimental_classes node_type

/-- C8: the guard is empty exactly when the class is in neither gating
set; when it is in both, the rendered guard is the conjunction in the
fixed order WASM-exclusion first, then experimental; and the per-class
guard every emitter uses is this one function of the class name. -/
theorem C8_cfg_attribute :
    (∀ (wasm exp : List String) (nt : String),
      get_type_cfg_attribute_with wasm exp nt = "" ↔ nt ∉ wasm ∧ nt ∉ exp) ∧
    (∀ (wasm exp : List String) (nt : String), nt ∈ wasm → nt ∈ exp →
      get_type_cfg_attribute_with wasm exp nt =
        "#[cfg(not(feature = \"experimental-wasm\")\n, feature = \"experimental-godot-api\"\n)]\n") ∧
    (∀ nt, get_type_cfg_attribute nt =
      get_type_cfg_attribute_with wasm_excluded_types experimental_classes nt) := by
  refine ⟨?_, ?_, fun _ => rfl⟩
  · intro wasm exp nt
    constructor
    · intro h
      by_cases hw : nt ∈ wasm
      · exfalso
        simp only [get_type_cfg_attribute_with, if_pos hw] at h
        by_cases he : nt ∈ exp
        · simp only [if_pos he] at h
          simp at h
          exact absurd h (by decide)
        · simp only [if_neg he] at h
          simp at h
          exact absurd h (by decide)
      · by_cases he : nt ∈ exp
        · exfalso
          simp only [get_type_cfg_attribute_with, if_neg hw, if_pos he] at h
          simp at h
          exact absurd h (by decide)
        · exact ⟨hw, he⟩
    · intro ⟨hw, he⟩
      simp [get_type_cfg_attribute_with, if_neg hw, if_neg he]
  · intro wasm exp nt hw he
    simp only [get_type_cfg_attribute_with, if_pos hw, if_pos he]
    rfl

/-- Witness for C8: a class in both (hypothetical) sets renders the fixed
conjunction, WASM predicate first. -/
theorem C8_cfg_attribute_witness :
    get_type_cfg_attribute_with ["Both"] ["Both"] "Both" =
      "#[cfg(not(feature = \"experimental-wasm\")\n, feature = \"experimental-godot-api\"\n)]\n" :=
  C8_cfg_attribute.2.1 ["Both"] ["Both"] "Both" (by decide) (by decide)



/-! ## Schema model and hierarchy indexer
(`scripts/generate_godot_types/gdextension_api.py`, claim C9) -/

/-- A `GodotClass` record restricted to the fields the hierarchy indexer
reads (`name` and `inherits`); the remaining dataclass fields
(`api_type`, flags, enums, methods, signals, descriptions) are never
consulted by `classes_descended_from` or `parent_map`. -/
structure GodotClass where
  name : String
  inherits : Option String
deriving Repr, DecidableEq

/-- The `inheritance_map` lookup: children are collected in class-list
order, exactly as the `defaultdict` append loop does. -/
def childrenOf (classes : List GodotClass) (p : String) : List String :=
  (classes.filter (fun c => c.inherits == some p)).map (fun c => c.name)

/-- The recursive `collect_descendants` visit: add the current name, then
recurse into its children.  `fuel` bounds the recursion depth; on a
forest of `n` records the depth never exceeds `n + 1`, so the fuel
`classes.length + 1` used below is exact for the acyclic inputs the
schema invariant guarantees (Python would not terminate on a cycle). -/
def collectDescendants (classes : List GodotClass) : Nat → String → List String
  | 0, n => [n]
  | fuel + 1, n =>
    n :: (childrenOf classes n).flatMap (collectDescendants classes fuel)

/-- `ExtensionApi.classes_descended_from`: the visited set, sorted
alphabetically (`sorted(set)`). -/
def classes_descended_from (classes : List GodotClass) (root : String) :
    List String := sortStr ((collectDescendants classes (classes.length + 1) root).dedup)

/-- `ExtensionApi.parent_map`: one entry per class that has a parent.
(Schema names are unique per the data-model invariant, so first-binding
lookup agrees with the Python dict.) -/
def parent_map (classes : List GodotClass) : ParentMap :=
  classes.filterMap (fun c => c.inherits.map (fun p => (c.name, p)))

/-- `x` reaches `root` by following `inherits` links of class records. -/
inductive UpReach (classes : List GodotClass) (root : String) : String → Prop
  | refl : UpReach classes root root
  | step {x p : String} (hrec : ∃ rec ∈ classes, rec.name = x ∧ rec.inherits = some p)
      (hp : UpReach classes root p) : UpReach classes root x

theorem mem_childrenOf {classes : List GodotClass} {p c : String} :
    c ∈ childrenOf classes p ↔
      ∃ rec ∈ classes, rec.name = c ∧ rec.inherits = some p := by
  simp only [childrenOf, List.mem_map, List.mem_filter, beq_iff_eq]
  constructor
  · rintro ⟨rec, ⟨hmem, hinh⟩, hname⟩
    exact ⟨rec, hmem, hname, hinh⟩
  · rintro ⟨rec, hmem, hname, hinh⟩
    exact ⟨rec, ⟨hmem, hinh⟩, hname⟩

theorem upreach_trans {classes : List GodotClass} {root mid x : String}
    (h1 : UpReach classes mid x) (h2 : UpReach classes root mid) :
    UpReach classes root x := by
  induction h1 with
  | refl => exact h2
  | step hrec _ ih => exact UpReach.step hrec ih

theorem collect_sound {classes : List GodotClass} :
    ∀ (fuel : Nat) (n x : String), x ∈ collectDescendants classes fuel n →
      UpReach classes n x := by
  intro fuel
  induction fuel with
  | zero =>
    intro n x hx
    simp only [collectDescendants, List.mem_singleton] at hx
    subst hx
    exact UpReach.refl
  | succ f ih =>
    intro n x hx
    simp only [collectDescendants, List.mem_cons, List.mem_flatMap] at hx
    rcases hx with rfl | ⟨c, hc, hxc⟩
    · exact UpReach.refl
    · have hcx : UpReach classes c x := ih c x hxc
      have hcn : UpReach classes n c :=
        UpReach.step (mem_childrenOf.mp hc) UpReach.refl
      exact upreach_trans hcx hcn

theorem self_mem_collect {classes : List GodotClass} (fuel : Nat) (n : String) :
    n ∈ collectDescendants classes fuel n := by
  cases fuel <;> simp [collectDescendants]

theorem collect_mono {classes : List GodotClass} :
    ∀ {f g : Nat}, f ≤ g → ∀ {n x : String},
      x ∈ collectDescendants classes f n → x ∈ collectDescendants classes g n := by
  intro f
  induction f with
  | zero =>
    intro g _ n x hx
    simp only [collectDescendants, List.mem_singleton] at hx
    subst hx
    exact self_mem_collect g _
  | succ f ih =>
    intro g hg n x hx
    cases g with
    | zero => omega
    | succ g' =>
      simp only [collectDescendants, List.mem_cons, List.mem_flatMap] at hx ⊢
      rcases hx with rfl | ⟨c, hc, hxc⟩
      · exact Or.inl rfl
      · exact Or.inr ⟨c, hc, ih (by omega) hxc⟩

theorem collect_step {classes : List GodotClass} :
    ∀ (f : Nat) (root p c : String), p ∈ collectDescendants classes f root →
      c ∈ childrenOf classes p →
      c ∈ collectDescendants classes (f + 1) root := by
  intro f
  induction f with
  | zero =>
    intro root p c hp hc
    have hpr : p = root := by
      simpa only [collectDescendants, List.mem_singleton] using hp
    rw [hpr] at hc
    show c ∈ root :: (childrenOf classes root).flatMap (collectDescendants classes 0)
    exact List.mem_cons_of_mem _
      (List.mem_flatMap.mpr ⟨c, hc, by simp [collectDescendants]⟩)
  | succ f ih =>
    intro root p c hp hc
    have hp' : p = root ∨
        ∃ d ∈ childrenOf classes root, p ∈ collectDescendants classes f d := by
      simpa only [collectDescendants, List.mem_cons, List.mem_flatMap] using hp
    show c ∈ root ::
      (childrenOf classes root).flatMap (collectDescendants classes (f + 1))
    rcases hp' with rfl | ⟨d, hd, hpd⟩
    · exact List.mem_cons_of_mem _
        (List.mem_flatMap.mpr ⟨c, hc, self_mem_collect (f + 1) c⟩)
    · exact List.mem_cons_of_mem _
        (List.mem_flatMap.mpr ⟨d, hd, ih d p c hpd hc⟩)

theorem upreach_mem_collect {classes : List GodotClass} {rank : String → Nat}
    (hrank : ∀ rec ∈ classes, ∀ p, rec.inherits = some p → rank p < rank rec.name)
    {root x : String} (hup : UpReach classes root x) :
    x ∈ collectDescendants classes (rank x - rank root + 1) root ∧
      (x = root ∨ rank root < rank x) := by
  induction hup with
  | refl => exact ⟨self_mem_collect _ root, Or.inl rfl⟩
  | step hrec hp ih =>
    rename_i x p
    rcases hrec with ⟨rec, hmem, hname, hinh⟩
    have hpx : rank p < rank x := by
      have := hrank rec hmem p hinh
      rwa [hname] at this
    have hrr : rank root ≤ rank p := by
      rcases ih.2 with h | h
      · rw [h]
      · omega
    have hcx : x ∈ childrenOf classes p :=
      mem_childrenOf.mpr ⟨rec, hmem, hname, hinh⟩
    have hstep := collect_step _ root p x ih.1 hcx
    refine ⟨collect_mono (by omega) hstep, Or.inr (by omega)⟩

/-- The spec's three-class scenario: `Node` (root), `Child1` inheriting
`Node`, `Child2` inheriting `Child1`. -/
def scenarioClasses : List GodotClass :=
  [⟨"Node", none⟩, ⟨"Child1", some "Node"⟩, ⟨"Child2", some "Child1"⟩]

/-- C9 counterexample: the claim says `classes_descended_from` raises a
fatal error on a root absent from the class records and never silently
returns; the code raises nothing and returns `["Ghost"]` for the absent
root "Ghost". -/
theorem C9_counterexample :
    classes_descended_from [⟨"A", none⟩, ⟨"B", some "A"⟩] "Ghost" = ["Ghost"] := by
  decide

/-- C9 (amended): `classes_descended_from` never raises — on an absent
root it silently returns just the root (plus anything chaining to it by
`inherits` references) — and for every class list admitting a rank that
decreases from child to parent (the forest invariant) and is bounded by
the record count, membership in the returned list is exactly
reachability of the root from the class along `inherits` links,
including the root itself. -/
theorem C9_amended_descendants :
    ∀ (classes : List GodotClass) (rank : String → Nat) (root x : String),
      (∀ rec ∈ classes, ∀ p, rec.inherits = some p → rank p < rank rec.name) →
      (∀ rec ∈ classes, rank rec.name ≤ classes.length) →
      (x ∈ classes_descended_from classes root ↔ UpReach classes root x) := by
  intro classes rank root x hrank hbound
  constructor
  · intro hx
    have hx' : x ∈ (collectDescendants classes (classes.length + 1) root).dedup :=
      mem_sortStr.mp hx
    exact collect_sound _ root x (List.mem_dedup.mp hx')
  · intro hup
    apply mem_sortStr.mpr
    apply List.mem_dedup.mpr
    cases hup with
    | refl => exact self_mem_collect _ root
    | step hrec hp =>
      rename_i p
      rcases hrec with ⟨rec, hmem, hname, hinh⟩
      have h := upreach_mem_collect hrank
        (UpReach.step ⟨rec, hmem, hname, hinh⟩ hp)
      have hxb : rank x ≤ classes.length := hname ▸ hbound rec hmem
      exact collect_mono (by omega) h.1

/-- Witness for C9 (amended): on the scenario schema with the depth rank,
membership of `Child2` in the computed descendant list yields an
`inherits`-chain from `Child2` to `Node`. -/
theorem C9_amended_descendants_witness :
    UpReach scenarioClasses "Node" "Child2" :=
  (C9_amended_descendants scenarioClasses
    (fun s => if s == "Node" then 0 else if s == "Child1" then 1 else 2)
    "Node" "Child2"
    (by
      intro rec hmem p hinh
      fin_cases hmem
      · exact absurd hinh (by simp)
      · have hp : p = "Node" := by simpa using hinh.symm
        subst hp; decide
      · have hp : p = "Child1" := by simpa using hinh.symm
        subst hp; decide)
    (by
      intro rec hmem
      fin_cases hmem <;> decide)).mp (by decide)

/-! ## The string-keyed static dispatch
(`gen_type_checking._generate_string_match_arms` /
`add_node_type_markers_from_string`, claim C1)

The generated Rust `match` is embedded semantically as an ordered table
of (pattern, inserted markers) pairs, one per generated arm, in emission
order; dispatch takes the first arm whose pattern equals the type
string, and the caller inserts `NodeMarker` beforehand. -/

/-- The hand-written base arms emitted before the per-category loops. -/
def baseArmTable : List (String × List String) :=
  [("Node3D", ["Node3DMarker"]),
   ("Node2D", ["Node2DMarker", "CanvasItemMarker"]),
   ("Control", ["ControlMarker", "CanvasItemMarker"]),
   ("CanvasItem", ["CanvasItemMarker"]),
   ("Node", [])]

/-- The arms of the generated `match`, in emission order: base arms, then
the 3d category (skipping `Node3D`), the 2d category (skipping
`Node2D`), the control category (skipping `Control`), and the universal
category (skipping `Node`, `CanvasItem`, `Node3D`). -/
def stringMatchArmTable (cats : Categories) : List (String × List String) :=
  baseArmTable ++
  (cats.threeD.filter (fun nt => !(nt == "Node3D"))).map
    (fun nt => (nt, ["Node3DMarker", nt ++ "Marker"])) ++
  (cats.twoD.filter (fun nt => !(nt == "Node2D"))).map
    (fun nt => (nt, ["Node2DMarker", "CanvasItemMarker", nt ++ "Marker"])) ++
  (cats.control.filter (fun nt => !(nt == "Control"))).map
    (fun nt => (nt, ["ControlMarker", "CanvasItemMarker", nt ++ "Marker"])) ++
  (cats.universal.filter
      (fun nt => !(nt == "Node" || nt == "CanvasItem" || nt == "Node3D"))).map
    (fun nt => (nt, [nt ++ "Marker"]))

/-- `add_node_type_markers_from_string`: insert `NodeMarker`, then the
markers of the first matching arm (none for an unrecognized type). -/
def add_node_type_markers_from_string (cats : Categories) (node_type : String) :
    List String :=
  "NodeMarker" ::
    (match (stringMatchArmTable cats).find? (fun a => a.1 == node_type) with
     | some a => a.2
     | none => [])

/-- The scenario pipeline: node types and parent map of the three-class
schema, categorized. -/
def scenarioCats : Categories :=
  categorize_types_by_hierarchy
    (classes_descended_from scenarioClasses "Node") (parent_map scenarioClasses)

/-- C1 counterexample: in the scenario schema the class `Child2`
(grandchild of the root through `Child1`) falls in no category, so the
generated `match` has no arm for it at all: dispatch on "Child2" inserts
nothing beyond `NodeMarker`, not the claimed Child2Marker and
Child1Marker ancestor chain. -/
theorem C1_counterexample :
    add_node_type_markers_from_string scenarioCats "Child2" = ["NodeMarker"] ∧
    "Child2Marker" ∉ add_node_type_markers_from_string scenarioCats "Child2" ∧
    "Child1Marker" ∉ add_node_type_markers_from_string scenarioCats "Child2" := by
  refine ⟨by decide, by decide, by decide⟩

theorem find?_arm_map_some {f : String → List String} {l : List String} {t : String}
    (hmem : t ∈ l) :
    (l.map (fun nt => (nt, f nt))).find? (fun a => a.1 == t) = some (t, f t) := by
  induction l with
  | nil => cases hmem
  | cons n ns ih =>
    by_cases hn : (n == t) = true
    · have : n = t := eq_of_beq hn
      subst this
      simp [List.find?]
    · rcases List.mem_cons.mp hmem with h | h
      · exact absurd (beq_iff_eq.mpr h.symm) hn
      · simp only [List.map_cons, List.find?, hn]
        exact ih h

theorem find?_arm_map_none {f : String → List String} {l : List String} {t : String}
    (hmem : t ∉ l) :
    (l.map (fun nt => (nt, f nt))).find? (fun a => a.1 == t) = none := by
  apply List.find?_eq_none.mpr
  intro a ha
  rcases List.mem_map.mp ha with ⟨nt, hnt, rfl⟩
  simp only [beq_iff_eq]
  intro h
  exact hmem (h ▸ hnt)

theorem baseArm_none {t : String}
    (h : t ∉ (["Node3D", "Node2D", "Control", "CanvasItem", "Node"] : List String)) :
    baseArmTable.find? (fun a => a.1 == t) = none := by
  apply List.find?_eq_none.mpr
  intro a ha
  simp only [List.mem_cons, List.not_mem_nil, or_false] at h
  push_neg at h
  fin_cases ha <;> simp only [beq_iff_eq] <;> intro heq <;> simp_all

/-- C1 (amended): the generated string dispatch inserts, beyond the
always-inserted `NodeMarker`, exactly the branch-root markers of the
class's category followed by the class's own marker — 3d classes get
`Node3DMarker`, 2d classes `Node2DMarker` and `CanvasItemMarker`,
control classes `ControlMarker` and `CanvasItemMarker`, universal
classes only their own marker — not the full transitive ancestor chain;
classes in no category (such as the scenario's `Child2`) insert nothing
additional.  In the scenario, dispatch on "Child1" inserts exactly
`Child1Marker`, and on "Node" and "Child2" nothing additional. -/
theorem C1_amended_dispatch :
    (∀ (nts : List String) (pm : ParentMap) (t : String),
      t ∈ (categorize_types_by_hierarchy nts pm).threeD →
      t ∉ (["Node3D", "Node2D", "Control", "CanvasItem", "Node"] : List String) →
      add_node_type_markers_from_string (categorize_types_by_hierarchy nts pm) t =
        ["NodeMarker", "Node3DMarker", t ++ "Marker"]) ∧
    (∀ (nts : List String) (pm : ParentMap) (t : String),
      t ∈ (categorize_types_by_hierarchy nts pm).twoD →
      t ∉ (["Node3D", "Node2D", "Control", "CanvasItem", "Node"] : List String) →
      add_node_type_markers_from_string (categorize_types_by_hierarchy nts pm) t =
        ["NodeMarker", "Node2DMarker", "CanvasItemMarker", t ++ "Marker"]) ∧
    (∀ (nts : List String) (pm : ParentMap) (t : String),
      t ∈ (categorize_types_by_hierarchy nts pm).control →
      t ∉ (["Node3D", "Node2D", "Control", "CanvasItem", "Node"] : List String) →
      add_node_type_markers_from_string (categorize_types_by_hierarchy nts pm) t =
        ["NodeMarker", "ControlMarker", "CanvasItemMarker", t ++ "Marker"]) ∧
    (∀ (nts : List String) (pm : ParentMap) (t : String),
      t ∈ (categorize_types_by_hierarchy nts pm).universal →
      t ∉ (["Node3D", "Node2D", "Control", "CanvasItem", "Node"] : List String) →
      add_node_type_markers_from_string (categorize_types_by_hierarchy nts pm) t =
        ["NodeMarker", t ++ "Marker"]) ∧
    add_node_type_markers_from_string scenarioCats "Child1" =
      ["NodeMarker", "Child1Marker"] ∧
    add_node_type_markers_from_string scenarioCats "Node" = ["NodeMarker"] ∧
    add_node_type_markers_from_string scenarioCats "Child2" = ["NodeMarker"] := by
  refine ⟨?_, ?_, ?_, ?_, by decide, by decide, by decide⟩
  · intro nts pm t ht hbase
    have hne : ¬(t == "Node3D") = true := by
      simp only [beq_iff_eq]
      intro h
      exact hbase (by simp [h])
    have hfilter : t ∈ (categorize_types_by_hierarchy nts pm).threeD.filter
        (fun nt => !(nt == "Node3D")) :=
      List.mem_filter.mpr ⟨ht, by simp [hne]⟩
    simp only [add_node_type_markers_from_string, stringMatchArmTable,
      List.find?_append, baseArm_none hbase, find?_arm_map_some hfilter,
      Option.none_or, Option.or]
  · intro nts pm t ht hbase
    have h3 : t ∉ (categorize_types_by_hierarchy nts pm).threeD := by
      intro hmem
      have a := (mem_threeD_iff.mp hmem).2
      have b := (mem_twoD_iff.mp ht).2.1
      rw [a] at b
      cases b
    have hne : ¬(t == "Node2D") = true := by
      simp only [beq_iff_eq]
      intro h
      exact hbase (by simp [h])
    have hf3 : t ∉ (categorize_types_by_hierarchy nts pm).threeD.filter
        (fun nt => !(nt == "Node3D")) := fun hmem => h3 (List.mem_filter.mp hmem).1
    have hfilter : t ∈ (categorize_types_by_hierarchy nts pm).twoD.filter
        (fun nt => !(nt == "Node2D")) :=
      List.mem_filter.mpr ⟨ht, by simp [hne]⟩
    simp only [add_node_type_markers_from_string, stringMatchArmTable,
      List.find?_append, baseArm_none hbase, find?_arm_map_none hf3,
      find?_arm_map_some hfilter, Option.none_or, Option.or]
  · intro nts pm t ht hbase
    have h3 : t ∉ (categorize_types_by_hierarchy nts pm).threeD := by
      intro hmem
      have a := (mem_threeD_iff.mp hmem).2
      have b := (mem_control_iff.mp ht).2.1
      rw [a] at b
      cases b
    have h2 : t ∉ (categorize_types_by_hierarchy nts pm).twoD := by
      intro hmem
      have a := (mem_twoD_iff.mp hmem).2.2
      have b := (mem_control_iff.mp ht).2.2.1
      rw [a] at b
      cases b
    have hne : ¬(t == "Control") = true := by
      simp only [beq_iff_eq]
      intro h
      exact hbase (by simp [h])
    have hf3 : t ∉ (categorize_types_by_hierarchy nts pm).threeD.filter
        (fun nt => !(nt == "Node3D")) := fun hmem => h3 (List.mem_filter.mp hmem).1
    have hf2 : t ∉ (categorize_types_by_hierarchy nts pm).twoD.filter
        (fun nt => !(nt == "Node2D")) := fun hmem => h2 (List.mem_filter.mp hmem).1
    have hfilter : t ∈ (categorize_types_by_hierarchy nts pm).control.filter
        (fun nt => !(nt == "Control")) :=
      List.mem_filter.mpr ⟨ht, by simp [hne]⟩
    simp only [add_node_type_markers_from_string, stringMatchArmTable,
      List.find?_append, baseArm_none hbase, find?_arm_map_none hf3,
      find?_arm_map_none hf2, find?_arm_map_some hfilter, Option.none_or, Option.or]
  · intro nts pm t ht hbase
    have h3 : t ∉ (categorize_types_by_hierarchy nts pm).threeD := by
      intro hmem
      have a := (mem_threeD_iff.mp hmem).2
      have b := (mem_universal_iff.mp ht).2.1
      rw [a] at b
      cases b
    have h2 : t ∉ (categorize_types_by_hierarchy nts pm).twoD := by
      intro hmem
      have a := (mem_twoD_iff.mp hmem).2.2
      have b := (mem_universal_iff.mp ht).2.2.1
      rw [a] at b
      cases b
    have hco : t ∉ (categorize_types_by_hierarchy nts pm).control := by
      intro hmem
      have a := (mem_control_iff.mp hmem).2.2.2
      have b := (mem_universal_iff.mp ht).2.2.2.1
      rw [a] at b
      cases b
    have hne : ¬(t == "Node" || t == "CanvasItem" || t == "Node3D") = true := by
      simp only [Bool.or_eq_true, beq_iff_eq]
      intro h
      rcases h with (h | h) | h <;> exact hbase (by simp [h])
    have hf3 : t ∉ (categorize_types_by_hierarchy nts pm).threeD.filter
        (fun nt => !(nt == "Node3D")) := fun hmem => h3 (List.mem_filter.mp hmem).1
    have hf2 : t ∉ (categorize_types_by_hierarchy nts pm).twoD.filter
        (fun nt => !(nt == "Node2D")) := fun hmem => h2 (List.mem_filter.mp hmem).1
    have hfc : t ∉ (categorize_types_by_hierarchy nts pm).control.filter
        (fun nt => !(nt == "Control")) := fun hmem => hco (List.mem_filter.mp hmem).1
    have hfilter : t ∈ (categorize_types_by_hierarchy nts pm).universal.filter
        (fun nt => !(nt == "Node" || nt == "CanvasItem" || nt == "Node3D")) :=
      List.mem_filter.mpr ⟨ht, by simp [hne]⟩
    simp only [add_node_type_markers_from_string, stringMatchArmTable,
      List.find?_append, baseArm_none hbase, find?_arm_map_none hf3,
      find?_arm_map_none hf2, find?_arm_map_none hfc,
      find?_arm_map_some hfilter, Option.none_or, Option.or]

/-- Witness for C1 (amended): a 3d class in a small schema gets exactly
the branch root marker and its own marker. -/
theorem C1_amended_dispatch_witness :
    add_node_type_markers_from_string
      (categorize_types_by_hierarchy ["Camera3D", "Node3D", "Node"]
        [("Node3D", "Node"), ("Camera3D", "Node3D")]) "Camera3D" =
      ["NodeMarker", "Node3DMarker", "Camera3D" ++ "Marker"] :=
  C1_amended_dispatch.1 ["Camera3D", "Node3D", "Node"]
    [("Node3D", "Node"), ("Camera3D", "Node3D")] "Camera3D"
    (by decide) (by decide)

/-! ## Emitted artifact text and determinism (claims C2, C3)

Text of the type-checking string match arms
(`_generate_string_match_arms`), the node-marker declarations
(`generate_node_markers` loop), and the GDScript classifier body
(`_generate_gdscript_type_analysis`), embedded byte-for-byte. -/

/-- Python whitespace for `str.strip()`. -/
def isPySpace (c : Char) : Bool :=
  c == ' ' || c == '\t' || c == '\n' || c == '\r' || c.toNat == 11 || c.toNat == 12

/-- `str.strip()`. -/
def pyStrip (s : String) : String :=
  ⟨((s.data.dropWhile isPySpace).reverse.dropWhile isPySpace).reverse⟩

/-- The hand-written base arms of the generated match (exact text). -/
def baseArmLines : List String :=
  ["        \"Node3D\" => \x7b",
   "            entity_commands.insert(Node3DMarker);",
   "        \x7d",
   "        \"Node2D\" => \x7b",
   "            entity_commands.insert(Node2DMarker);",
   "            entity_commands.insert(CanvasItemMarker);",
   "        \x7d",
   "        \"Control\" => \x7b",
   "            entity_commands.insert(ControlMarker);",
   "            entity_commands.insert(CanvasItemMarker);",
   "        \x7d",
   "        \"CanvasItem\" => \x7b",
   "            entity_commands.insert(CanvasItemMarker);",
   "        \x7d",
   "        \"Node\" => \x7b",
   "            // NodeMarker already added above",
   "        \x7d"]

/-- One generated arm: the match pattern, the branch-root marker inserts,
the type's own marker insert, with the cfg guard prefix when the class
is gated (exact text of the two f-string templates). -/
def armFor (roots : List String) (nt : String) : String :=
  (fun body =>
    if get_type_cfg_attribute nt = "" then
      "        \"" ++ nt ++ "\" => \x7b\n" ++ body ++ "    \x7d"
    else
      "        " ++ pyStrip (get_type_cfg_attribute nt) ++ "\n    \"" ++ nt ++
        "\" => \x7b\n" ++ body ++ "    \x7d")
  (String.join ((roots ++ [nt ++ "Marker"]).map
    (fun m => "        entity_commands.insert(" ++ m ++ ");\n")))

/-- `_generate_string_match_arms`: base arms, then the four category
loops in the dictionary's iteration order, joined with newlines.  The
category lists are NOT sorted here — their order is the discovery order
of `categorize_types_by_hierarchy`, i.e. the enumeration order of the
node-type set. -/
def generate_string_match_arms (cats : Categories) : String :=
  String.intercalate "\n"
    (baseArmLines ++
     (cats.threeD.filter (fun nt => !(nt == "Node3D"))).map
       (armFor ["Node3DMarker"]) ++
     (cats.twoD.filter (fun nt => !(nt == "Node2D"))).map
       (armFor ["Node2DMarker", "CanvasItemMarker"]) ++
     (cats.control.filter (fun nt => !(nt == "Control"))).map
       (armFor ["ControlMarker", "CanvasItemMarker"]) ++
     (cats.universal.filter
         (fun nt => !(nt == "Node" || nt == "CanvasItem" || nt == "Node3D"))).map
       (armFor []))

/-- The marker-struct declarations of `generate_node_markers`: one block
per class of the sorted node-type list. -/
def nodeMarkersBlocks (node_types : List String) : String :=
  String.join ((sortStr node_types).map (fun nc =>
    get_type_cfg_attribute nc ++
    "#[derive(Component, Debug, Clone, Copy, PartialEq, Eq, Default, Reflect)]\n" ++
    "#[reflect(Component)]\n" ++
    "pub struct " ++ nc ++ "Marker;\n\n"))

set_option maxRecDepth 4096 in
/-- Byte-exactness check of the match-arms embedding against the Python
generator's output on a sample categorization (one plain 3d class, one
experimental-gated 3d class, one universal class). -/
theorem matchArms_sample_text :
    generate_string_match_arms
      ⟨["A", "NavigationAgent3D"], [], [], ["Child1"]⟩ = "        \"Node3D\" => \x7b\n            entity_commands.insert(Node3DMarker);\n        \x7d\n        \"Node2D\" => \x7b\n            entity_commands.insert(Node2DMarker);\n            entity_commands.insert(CanvasItemMarker);\n        \x7d\n        \"Control\" => \x7b\n            entity_commands.insert(ControlMarker);\n            entity_commands.insert(CanvasItemMarker);\n        \x7d\n        \"CanvasItem\" => \x7b\n            entity_commands.insert(CanvasItemMarker);\n        \x7d\n        \"Node\" => \x7b\n            // NodeMarker already added above\n        \x7d\n        \"A\" => \x7b\n        entity_commands.insert(Node3DMarker);\n        entity_commands.insert(AMarker);\n    \x7d\n        #[cfg(feature = \"experimental-godot-api\"\n)]\n    \"NavigationAgent3D\" => \x7b\n        entity_commands.insert(Node3DMarker);\n        entity_commands.insert(NavigationAgent3DMarker);\n    \x7d\n        \"Child1\" => \x7b\n        entity_commands.insert(Child1Marker);\n    \x7d" := by decide

/-- The hard-coded common-type shortlists of
`_generate_gdscript_type_analysis`. -/
def common_3d : List String :=
  ["MeshInstance3D", "StaticBody3D", "RigidBody3D", "CharacterBody3D",
   "Area3D", "Camera3D", "DirectionalLight3D", "OmniLight3D", "SpotLight3D",
   "CollisionShape3D"]

def common_2d : List String :=
  ["Sprite2D", "StaticBody2D", "RigidBody2D", "CharacterBody2D", "Area2D",
   "Camera2D", "CollisionShape2D", "AnimatedSprite2D"]

def common_control : List String :=
  ["Button", "Label", "Panel", "VBoxContainer", "HBoxContainer",
   "MarginContainer", "ColorRect", "LineEdit", "TextEdit", "CheckBox"]

def common_universal : List String :=
  ["AnimationPlayer", "Timer", "AudioStreamPlayer", "HTTPRequest", "CanvasLayer"]

/-- The probe order of one category branch: the shortlist members present
in the category first, then the alphabetically sorted remaining
members. -/
def probeOrder (common cat : List String) : List String :=
  common.filter (fun nt => cat.contains nt) ++
    (sortStr cat).filter (fun nt => !common.contains nt)

/-- A `        if node is T: return "T"` probe line (branch sections). -/
def probeLineIf (nt : String) : String :=
  "        if node is " ++ nt ++ ": return \"" ++ nt ++ "\""

/-- A `    elif node is T: return "T"` probe line (universal section). -/
def probeLineElif (nt : String) : String :=
  "    elif node is " ++ nt ++ ": return \"" ++ nt ++ "\""

/-- The lines of `_generate_gdscript_type_analysis`, in emission order. -/
def gdTypeAnalysisLines (cats : Categories) : List String :=
  ["", "    # Check Node3D hierarchy first (most common in 3D games)",
   "    if node is Node3D:"] ++
  (probeOrder common_3d cats.threeD).map probeLineIf ++
  ["        return \"Node3D\"", "",
   "    # Check Node2D hierarchy (common in 2D games)",
   "    elif node is Node2D:"] ++
  (probeOrder common_2d cats.twoD).map probeLineIf ++
  ["        return \"Node2D\"", "",
   "    # Check Control hierarchy (UI elements)",
   "    elif node is Control:"] ++
  (probeOrder common_control cats.control).map probeLineIf ++
  ["        return \"Control\"", "",
   "    # Check other common node types that inherit directly from Node"] ++
  (probeOrder common_universal cats.universal).map probeLineElif

/-- `_generate_gdscript_type_analysis`. -/
def generate_gdscript_type_analysis (cats : Categories) : String :=
  String.intercalate "\n" (gdTypeAnalysisLines cats)

set_option maxRecDepth 4096 in
/-- Byte-exactness check of the GDScript classifier embedding against the
Python generator's output on a sample categorization. -/
theorem gdAnalysis_sample_text :
    generate_gdscript_type_analysis
      ⟨["MeshInstance3D", "A"], [], [], ["Timer", "Child1"]⟩ =
    "\n    # Check Node3D hierarchy first (most common in 3D games)\n    if node is Node3D:\n        if node is MeshInstance3D: return \"MeshInstance3D\"\n        if node is A: return \"A\"\n        return \"Node3D\"\n\n    # Check Node2D hierarchy (common in 2D games)\n    elif node is Node2D:\n        return \"Node2D\"\n\n    # Check Control hierarchy (UI elements)\n    elif node is Control:\n        return \"Control\"\n\n    # Check other common node types that inherit directly from Node\n    elif node is Timer: return \"Timer\"\n    elif node is Child1: return \"Child1\"" := by
  decide

/-- The parent map for the C2 counterexample schema: two 3d classes and
one universal class. -/
def pmC2 : ParentMap :=
  [("Node3D", "Node"), ("A", "Node3D"), ("NavigationAgent3D", "Node3D"),
   ("Child1", "Node")]

set_option maxRecDepth 8192 in
/-- C2 counterexample: two enumerations of the same node-type set (a
permutation) yield different match-arms text, because
`_generate_string_match_arms` iterates the category lists in discovery
order without sorting — the artifact is not independent of the
process-level iteration order of the derived node-type set. -/
theorem C2_counterexample :
    (["Node", "Node3D", "A", "NavigationAgent3D", "Child1"] : List String).Perm
      ["Node", "Node3D", "NavigationAgent3D", "A", "Child1"] ∧
    generate_string_match_arms
        (categorize_types_by_hierarchy
          ["Node", "Node3D", "A", "NavigationAgent3D", "Child1"] pmC2) ≠
      generate_string_match_arms
        (categorize_types_by_hierarchy
          ["Node", "Node3D", "NavigationAgent3D", "A", "Child1"] pmC2) := by
  refine ⟨by decide, by decide⟩

theorem probeOrder_congr {common cat1 cat2 : List String} (h : cat1.Perm cat2) :
    probeOrder common cat1 = probeOrder common cat2 := by
  unfold probeOrder
  congr 1
  · apply List.filter_congr
    intro x _
    show List.elem x cat1 = List.elem x cat2
    by_cases hx : x ∈ cat1
    · rw [List.elem_iff.mpr hx, List.elem_iff.mpr (h.mem_iff.mp hx)]
    · have hx2 : x ∉ cat2 := fun hc => hx (h.mem_iff.mpr hc)
      have e1 : List.elem x cat1 = false := by
        cases hc : List.elem x cat1 with
        | false => rfl
        | true => exact absurd (List.elem_iff.mp hc) hx
      have e2 : List.elem x cat2 = false := by
        cases hc : List.elem x cat2 with
        | false => rfl
        | true => exact absurd (List.elem_iff.mp hc) hx2
      rw [e1, e2]
  · rw [sortStr_eq_of_perm h]

/-- C2 (amended): each emitted artifact is a deterministic function of the
schema *and the enumeration order* of the derived node-type set.  The
emitters that sort are enumeration-independent: the GDScript classifier
body and the node-marker declarations are byte-identical across any two
enumerations of the same set; only the string match arms (see the
counterexample) depend on the enumeration. -/
theorem C2_amended_determinism :
    (∀ (l1 l2 : List String) (pm : ParentMap), l1.Perm l2 →
      generate_gdscript_type_analysis (categorize_types_by_hierarchy l1 pm) =
        generate_gdscript_type_analysis (categorize_types_by_hierarchy l2 pm)) ∧
    (∀ l1 l2 : List String, l1.Perm l2 →
      nodeMarkersBlocks l1 = nodeMarkersBlocks l2) := by
  constructor
  · intro l1 l2 pm h
    have h3 : ((categorize_types_by_hierarchy l1 pm).threeD).Perm
        ((categorize_types_by_hierarchy l2 pm).threeD) := by
      rw [categorize_threeD_eq, categorize_threeD_eq]
      exact h.filter _
    have h2 : ((categorize_types_by_hierarchy l1 pm).twoD).Perm
        ((categorize_types_by_hierarchy l2 pm).twoD) := by
      rw [categorize_twoD_eq, categorize_twoD_eq]
      exact h.filter _
    have hc : ((categorize_types_by_hierarchy l1 pm).control).Perm
        ((categorize_types_by_hierarchy l2 pm).control) := by
      rw [categorize_control_eq, categorize_control_eq]
      exact h.filter _
    have hu : ((categorize_types_by_hierarchy l1 pm).universal).Perm
        ((categorize_types_by_hierarchy l2 pm).universal) := by
      rw [categorize_universal_eq, categorize_universal_eq]
      exact h.filter _
    unfold generate_gdscript_type_analysis gdTypeAnalysisLines
    rw [probeOrder_congr h3, probeOrder_congr h2, probeOrder_congr hc,
      probeOrder_congr hu]
  · intro l1 l2 h
    unfold nodeMarkersBlocks
    rw [sortStr_eq_of_perm h]

set_option maxRecDepth 8192 in
/-- Witness for C2 (amended): the GDScript classifier text agrees across
two concrete enumerations of the counterexample schema. -/
theorem C2_amended_determinism_witness :
    generate_gdscript_type_analysis
        (categorize_types_by_hierarchy
          ["Node", "Node3D", "A", "NavigationAgent3D", "Child1"] pmC2) =
      generate_gdscript_type_analysis
        (categorize_types_by_hierarchy
          ["Node", "Node3D", "NavigationAgent3D", "A", "Child1"] pmC2) :=
  C2_amended_determinism.1
    ["Node", "Node3D", "A", "NavigationAgent3D", "Child1"]
    ["Node", "Node3D", "NavigationAgent3D", "A", "Child1"] pmC2 (by decide)

/-! ## The generated GDScript classifier, semantically (claim C3)

The generated `_analyze_node_type` is a cascade of GDScript `is` tests;
`node is T` holds exactly when the node's concrete type equals `T` or
descends from it, which the schema parent map decides.  The classifier
is embedded as the first probe (in emission order) that the concrete
type matches, with the branch root as fallback. -/

/-- GDScript `node is C` for a node of concrete type `t`. -/
def isInstanceOf (pm : ParentMap) (t c : String) : Bool :=
  t == c || is_descendant_of pm t c

/-- The value returned by a run of `if node is T: return "T"` probes with
a fallback return. -/
def classifyList (pm : ParentMap) (t : String) (probes : List String)
    (fallback : String) : String :=
  match probes.find? (fun c => isInstanceOf pm t c) with
  | some c => c
  | none => fallback

/-- The generated `_analyze_node_type` applied to a node of concrete
type `t`: branch on the hierarchy roots in emitted order, then probe the
branch's members in the shortlist-then-alphabetical order. -/
def analyze_node_type (cats : Categories) (pm : ParentMap) (t : String) : String :=
  if isInstanceOf pm t "Node3D" then
    classifyList pm t (probeOrder common_3d cats.threeD) "Node3D"
  else if isInstanceOf pm t "Node2D" then
    classifyList pm t (probeOrder common_2d cats.twoD) "Node2D"
  else if isInstanceOf pm t "Control" then
    classifyList pm t (probeOrder common_control cats.control) "Control"
  else
    classifyList pm t (probeOrder common_universal cats.universal) "Node"

/-- The purely alphabetical variant of the classifier the claim compares
against. -/
def analyze_node_type_alpha (cats : Categories) (pm : ParentMap) (t : String) :
    String :=
  if isInstanceOf pm t "Node3D" then
    classifyList pm t (sortStr cats.threeD) "Node3D"
  else if isInstanceOf pm t "Node2D" then
    classifyList pm t (sortStr cats.twoD) "Node2D"
  else if isInstanceOf pm t "Control" then
    classifyList pm t (sortStr cats.control) "Control"
  else
    classifyList pm t (sortStr cats.universal) "Node"

/-- The C3 counterexample schema: `MeshInstance3D` and `Label3D` both
descend from `GeometryInstance3D` under `Node3D`. -/
def pmC3 : ParentMap :=
  [("Node3D", "Node"), ("GeometryInstance3D", "Node3D"),
   ("MeshInstance3D", "GeometryInstance3D"), ("Label3D", "GeometryInstance3D")]

def catsC3 : Categories :=
  categorize_types_by_hierarchy
    ["GeometryInstance3D", "Label3D", "MeshInstance3D", "Node", "Node3D"] pmC3

set_option maxRecDepth 8192 in
/-- C3 counterexample: on a `MeshInstance3D` node the generated
(shortlist-first) classifier returns "MeshInstance3D" but a purely
alphabetical probe order returns the ancestor "GeometryInstance3D" —
the two orders disagree; and on a `Label3D` node the generated
classifier returns "GeometryInstance3D" although `Label3D` itself is in
the probe list and matches — not the most specific class. -/
theorem C3_counterexample :
    analyze_node_type catsC3 pmC3 "MeshInstance3D" = "MeshInstance3D" ∧
    analyze_node_type_alpha catsC3 pmC3 "MeshInstance3D" = "GeometryInstance3D" ∧
    ("MeshInstance3D" : String) ≠ "GeometryInstance3D" ∧
    analyze_node_type catsC3 pmC3 "Label3D" = "GeometryInstance3D" ∧
    "Label3D" ∈ probeOrder common_3d catsC3.threeD ∧
    isInstanceOf pmC3 "Label3D" "Label3D" = true ∧
    ("Label3D" : String) ≠ "GeometryInstance3D" := by
  refine ⟨by decide, by decide, by decide, by decide, by decide, by decide, by decide⟩

theorem mem_probeOrder {common cat : List String} {x : String} :
    x ∈ probeOrder common cat ↔ x ∈ cat := by
  unfold probeOrder
  rw [List.mem_append, List.mem_filter, List.mem_filter]
  constructor
  · rintro (⟨_, hcon⟩ | ⟨hs, _⟩)
    · exact List.elem_iff.mp hcon
    · exact mem_sortStr.mp hs
  · intro hx
    by_cases hc : x ∈ common
    · exact Or.inl ⟨hc, List.elem_iff.mpr hx⟩
    · refine Or.inr ⟨mem_sortStr.mpr hx, ?_⟩
      cases hcc : List.elem x common with
      | false =>
        show (!List.elem x common) = true
        rw [hcc]
        rfl
      | true => exact absurd (List.elem_iff.mp hcc) hc

theorem unique_of_filter_len {l : List String} {p : String → Bool}
    (h : (l.filter p).length ≤ 1) :
    ∀ a ∈ l, ∀ b ∈ l, p a = true → p b = true → a = b := by
  intro a ha b hb hpa hpb
  have ha' : a ∈ l.filter p := List.mem_filter.mpr ⟨ha, hpa⟩
  have hb' : b ∈ l.filter p := List.mem_filter.mpr ⟨hb, hpb⟩
  cases hf : l.filter p with
  | nil => rw [hf] at ha'; cases ha'
  | cons x xs =>
    cases xs with
    | nil =>
      rw [hf] at ha' hb'
      simp only [List.mem_singleton] at ha' hb'
      rw [ha', hb']
    | cons y ys => rw [hf] at h; simp at h

theorem find?_congr_unique {l1 l2 : List String} {p : String → Bool}
    (hmem : ∀ x, x ∈ l1 ↔ x ∈ l2)
    (huniq : ∀ a ∈ l1, ∀ b ∈ l1, p a = true → p b = true → a = b) :
    l1.find? p = l2.find? p := by
  cases h1 : l1.find? p with
  | none =>
    cases h2 : l2.find? p with
    | none => rfl
    | some b =>
      have hnone := List.find?_eq_none.mp h1
      exact absurd (List.find?_some h2)
        (hnone b ((hmem b).mpr (List.mem_of_find?_eq_some h2)))
  | some a =>
    have hamem := List.mem_of_find?_eq_some h1
    have hpa := List.find?_some h1
    cases h2 : l2.find? p with
    | none =>
      have hnone := List.find?_eq_none.mp h2
      exact absurd hpa (hnone a ((hmem a).mp hamem))
    | some b =>
      have hbmem := (hmem b).mpr (List.mem_of_find?_eq_some h2)
      have hpb := List.find?_some h2
      rw [huniq a hamem b hbmem hpa hpb]

/-- C3 (amended): whenever the concrete type matches at most one member
of each category list (in real schemas it can match several — an
ancestor and a descendant can share a category, see the counterexample),
the generated shortlist-first classifier and the purely alphabetical one
return the same type name. -/
theorem C3_amended_probe_order (nts : List String) (pm : ParentMap) (t : String)
    (h3 : ((categorize_types_by_hierarchy nts pm).threeD.filter
        (fun c => isInstanceOf pm t c)).length ≤ 1)
    (h2 : ((categorize_types_by_hierarchy nts pm).twoD.filter
        (fun c => isInstanceOf pm t c)).length ≤ 1)
    (hco : ((categorize_types_by_hierarchy nts pm).control.filter
        (fun c => isInstanceOf pm t c)).length ≤ 1)
    (hu : ((categorize_types_by_hierarchy nts pm).universal.filter
        (fun c => isInstanceOf pm t c)).length ≤ 1) :
    analyze_node_type (categorize_types_by_hierarchy nts pm) pm t =
      analyze_node_type_alpha (categorize_types_by_hierarchy nts pm) pm t := by
  have step : ∀ (common cat : List String) (fb : String),
      (cat.filter (fun c => isInstanceOf pm t c)).length ≤ 1 →
      classifyList pm t (probeOrder common cat) fb =
        classifyList pm t (sortStr cat) fb := by
    intro common cat fb hlen
    unfold classifyList
    rw [find?_congr_unique]
    · intro x
      exact mem_probeOrder.trans mem_sortStr.symm
    · intro a ha b hb hpa hpb
      exact unique_of_filter_len hlen a (mem_probeOrder.mp ha) b
        (mem_probeOrder.mp hb) hpa hpb
  unfold analyze_node_type analyze_node_type_alpha
  by_cases b3 : isInstanceOf pm t "Node3D" = true
  · rw [if_pos b3, if_pos b3]
    exact step _ _ _ h3
  · rw [if_neg b3, if_neg b3]
    by_cases b2 : isInstanceOf pm t "Node2D" = true
    · rw [if_pos b2, if_pos b2]
      exact step _ _ _ h2
    · rw [if_neg b2, if_neg b2]
      by_cases bc : isInstanceOf pm t "Control" = true
      · rw [if_pos bc, if_pos bc]
        exact step _ _ _ hco
      · rw [if_neg bc, if_neg bc]
        exact step _ _ _ hu

set_option maxRecDepth 8192 in
/-- Witness for C3 (amended): in a schema whose 3d branch holds a single
class, both probe orders classify a `Camera3D` node identically. -/
theorem C3_amended_probe_order_witness :
    analyze_node_type
        (categorize_types_by_hierarchy ["Camera3D", "Node3D", "Node"]
          [("Node3D", "Node"), ("Camera3D", "Node3D")])
        [("Node3D", "Node"), ("Camera3D", "Node3D")] "Camera3D" =
      analyze_node_type_alpha
        (categorize_types_by_hierarchy ["Camera3D", "Node3D", "Node"]
          [("Node3D", "Node"), ("Camera3D", "Node3D")])
        [("Node3D", "Node"), ("Camera3D", "Node3D")] "Camera3D" :=
  C3_amended_probe_order ["Camera3D", "Node3D", "Node"]
    [("Node3D", "Node"), ("Camera3D", "Node3D")] "Camera3D"
    (by decide) (by decide) (by decide) (by decide)

end GodotBevy
